import Mathlib

/-!
# A shallow embedding of the switch-allocation step of `IQRouterSplit`

This file models, in Lean, the per-cycle allocation step `IQRouterSplit::_Alloc`
from `src/routers/iq_router_split.cpp` (a single-router switch-allocation stage
of a cycle-accurate network simulator).  The embedding follows the source
line by line:

* the slow-path request-building pass (source lines 85-237),
* the fast-path request-building pass (source lines 239-387),
* the grant-resolution / transfer / credit phase (source lines 413-642).

External collaborators that live outside the given source file (the per-VC
input buffer, the downstream buffer-occupancy tracker, the route set, and the
pluggable switch allocator) are modelled from the interface contracts stated
in the specification; each such definition carries a doc comment beginning
with `Modelled from the spec:`.

C++ `assert` failures and out-of-bounds accesses are modelled as `Except.error`
with an `Abort` value identifying the failing check, so that every theorem
about a completed (`Except.ok`) run speaks about executions in which no
assertion fired.
-/

set_option autoImplicit false

namespace IQSplit

/-- VC state, `VC::eVCState` restricted to the values this code inspects
(`idle`, `vc_alloc`, `active`). -/
inductive VCState where
  | idle
  | vcAlloc
  | active
deriving DecidableEq, Repr

/-- One flow-control unit of a packet.  Fields are the ones `_Alloc` reads or
writes: `vc` (the flit's current VC id), `fromRouter` (`from_router`, used as
the credit destination), `hops`, and the `tail` flag.  `fid` stands for the
flit id (used only to tell flits apart). -/
structure Flit where
  fid : Nat
  vc : Nat
  fromRouter : Nat
  hops : Nat
  tail : Bool
deriving DecidableEq, Repr

/-- Modelled from the spec: the per-VC view of the input `Buffer` collaborator
(`state`, `state-entry-time`, `front-flit` / `is-empty` via the `flits` queue,
`route-set`, `assigned-output-port`, `assigned-output-vc`, `priority`).
`routeSet output` is the ordered list of `(output VC, priority)` candidates
the route set holds for that output (`OutputSet::NumVCs` / `OutputSet::GetVC`). -/
structure VCRec where
  state : VCState
  stateTime : Nat
  flits : List Flit
  routeSet : Nat → List (Nat × Int)
  outputPort : Nat
  outputVC : Nat
  prio : Int

/-- Modelled from the spec: the downstream buffer tracker (`BufferState`) for
one output: per-output-VC availability (`is-available-for`), per-output-VC
occupancy and a capacity, which answer `is-full-for`; `reserve` clears
availability and `record-send` increments occupancy. -/
structure BufferState where
  avail : Nat → Bool
  occ : Nat → Nat
  cap : Nat

/-- Modelled from the spec: `BufferState::IsFullFor` — the output VC is full
when its occupancy has reached the capacity. -/
def BufferState.isFullFor (b : BufferState) (v : Nat) : Bool :=
  b.cap ≤ b.occ v

/-- The router-owned state `_Alloc` reads and writes: the per-input buffers,
the downstream trackers (`_next_buf`), the switch-hold tables
(`_switch_hold_in` / `_switch_hold_vc` indexed by expanded input,
`_switch_hold_out` indexed by expanded output), the fast-path eligibility
flags (`_use_fast_path`, indexed here by `(input, vc)` — the source flattens
this to `input*_vcs+vc`), and the two round-robin offset tables
(`_vc_rr_offset` by `(input, vc)`, `_sw_rr_offset` by expanded input). -/
structure RouterState where
  buf : Nat → Nat → VCRec
  nextBuf : Nat → BufferState
  holdIn : Nat → Int
  holdVC : Nat → Int
  holdOut : Nat → Int
  useFastPath : Nat → Nat → Bool
  vcRROffset : Nat → Nat → Nat
  swRROffset : Nat → Nat

/-- The configuration surface `_Alloc` depends on. -/
structure Params where
  inputs : Nat
  outputs : Nat
  inputSpeedup : Nat
  outputSpeedup : Nat
  vcs : Nat
  swAllocDelay : Nat
  holdSwitchForPacket : Bool

/-- Expanded input of `(input, vc)`: `input * _input_speedup + vc % _input_speedup`. -/
def expIn (P : Params) (input vc : Nat) : Nat :=
  input * P.inputSpeedup + vc % P.inputSpeedup

/-- Expanded output of `(output, input)`: `output * _output_speedup + input % _output_speedup`. -/
def expOut (P : Params) (output input : Nat) : Nat :=
  output * P.outputSpeedup + input % P.outputSpeedup

/-- Sites at which the source aborts: each constructor corresponds to an
`assert` in `IQRouterSplit::_Alloc` (or to an out-of-bounds access that the
C++ code would perform on a malformed state). -/
inductive Abort where
  /-- line 96: `assert((vc % _input_speedup) == s)` on the slow-path start VC. -/
  | rrOffsetMisaligned
  /-- line 165: `assert(!((vc_state == VC::active) && (vc_cnt == 0)))`. -/
  | activeEmptyRouteSlow
  /-- line 287: `assert(fast_path_vcs[input] < 0)` — a second fast-path VC. -/
  | doubleFastPathVC
  /-- line 324: `assert((vc_state != VC::active) || (vc_cnt > 0))`. -/
  | activeEmptyRouteFast
  /-- line 436: `assert(_switch_hold_in[expanded_input] >= 0)`. -/
  | holdNegative
  /-- a held `_switch_hold_vc` below zero: the source would index the buffer
  out of bounds. -/
  | holdVCNegative
  /-- a grant whose allocator slot holds no request: `ReadRequest` returns -1
  and the source would index the buffer out of bounds. -/
  | grantWithoutRequest
  /-- line 457: `assert(f)` — granted VC has no front flit. -/
  | frontFlitMissing
  /-- line 472: `assert(_use_fast_path[input*_vcs+fvc])`. -/
  | fastFlagCleared
  /-- line 473: `assert(cur_buf->FrontFlit(fvc))`. -/
  | fastFrontMissing
  /-- line 530: `assert(sel_vc > -1)` — no suitable output VC at resolution. -/
  | noEligibleOutVC
  /-- line 554: `assert(!cur_buf->Empty(vc))`. -/
  | transferEmpty
  /-- line 555: `assert(cur_buf->GetOutputPort(vc) == output)`. -/
  | wrongOutputPort
  /-- line 559: `assert(!dest_buf->IsFullFor(cur_buf->GetOutputVC(vc)))`. -/
  | destFull
  /-- line 592: `assert(vc == f->vc)`. -/
  | vcMismatch
  /-- line 629: `assert(_use_fast_path[input*_vcs+fvc])` (no-grant branch). -/
  | fastFlagCleared2
  /-- line 631: `assert(f)` on the fast-path VC in the no-grant branch. -/
  | fastFrontMissing2
deriving DecidableEq, Repr

/-- One request held by the switch allocator for a crossbar slot. -/
structure Request where
  vc : Nat
  prio : Int
  sub : Int
deriving DecidableEq, Repr

/-- Modelled from the spec: the allocator's request store, one optional
request per (expanded input, expanded output) slot (`ReadRequest` answers
whether a slot holds a request and which VC it names). -/
def ReqMatrix : Type :=
  Nat → Nat → Option Request

/-- One `AddRequest` call, tagged (beyond the arguments the allocator
receives: expanded input `ei`, expanded output `eo`, `vc`, priority and
sub-priority) with the physical `input` the requesting VC lives at, so that
theorems can speak about who issued the call. -/
structure AddCall where
  input : Nat
  vc : Nat
  ei : Nat
  eo : Nat
  prio : Int
  sub : Int
deriving DecidableEq, Repr

/-- Modelled from the spec: `Allocator::AddRequest` — a request replaces the
request standing in its slot only if it has strictly higher priority (the
source comments: "only replace the previous request if the current request
has a higher priority (this is default behavior of the allocators)"). -/
def addRequest (m : ReqMatrix) (c : AddCall) : ReqMatrix :=
  fun a b =>
    if a = c.ei ∧ b = c.eo then
      match m c.ei c.eo with
      | none => some ⟨c.vc, c.prio, c.sub⟩
      | some r0 => if r0.prio < c.prio then some ⟨c.vc, c.prio, c.sub⟩ else some r0
    else m a b

/-- Apply a list of `AddRequest` calls in order. -/
def applyCalls (m : ReqMatrix) : List AddCall → ReqMatrix
  | [] => m
  | c :: cs => applyCalls (addRequest m c) cs

/-- The shared candidate scan of both request-building passes (source lines
167-199 and 326-358): walk the route-set candidates for one output and
return the highest priority among the eligible ones (`none` when no
candidate is eligible, mirroring `do_request == false`).  A candidate is
skipped when the VC is in `vc_alloc` state and the output VC is not
available, when the VC is in `active` state and the output VC differs from
its assigned one, or when the output VC is full. -/
def scanOutVCs (st : VCState) (aOutVC : Nat) (dest : BufferState) :
    List (Nat × Int) → Option Int → Option Int
  | [], acc => acc
  | c :: rest, acc =>
    let acc2 :=
      if st = VCState.vcAlloc ∧ dest.avail c.1 = false then acc
      else if st = VCState.active ∧ c.1 ≠ aOutVC then acc
      else if dest.isFullFor c.1 then acc
      else
        match acc with
        | none => some c.2
        | some q => if q < c.2 then some c.2 else some q
    scanOutVCs st aOutVC dest rest acc2

/-- One output iteration of the slow-path request builder (source lines
152-224): skip the slot when either side is held, otherwise scan the
candidates and emit at most one `AddRequest` call. -/
def slowOutBody (P : Params) (r : RouterState) (input vc output : Nat) :
    Except Abort (Option AddCall) :=
  let ei := expIn P input vc
  let eo := expOut P output input
  let cb := r.buf input vc
  if r.holdIn ei = -1 ∧ r.holdOut eo = -1 then
    let dest := r.nextBuf output
    let cands := cb.routeSet output
    if cb.state = VCState.active ∧ cands.length = 0 then
      Except.error Abort.activeEmptyRouteSlow
    else
      match scanOutVCs cb.state cb.outputVC dest cands none with
      | some p => Except.ok (some ⟨input, vc, ei, eo, p, cb.prio⟩)
      | none => Except.ok none
  else Except.ok none

/-- The rotating output loop of the slow path for a VC in `vc_alloc` state
(source lines 139-232): `count` outputs are visited starting from the VC's
round-robin offset, advancing by `(output + 1) % _outputs`. -/
def slowOutLoop (P : Params) (r : RouterState) (input vc : Nat) :
    Nat → Nat → List AddCall → Except Abort (List AddCall)
  | 0, _, acc => Except.ok acc
  | count + 1, output, acc =>
    match slowOutBody P r input vc output with
    | Except.error a => Except.error a
    | Except.ok none => slowOutLoop P r input vc count ((output + 1) % P.outputs) acc
    | Except.ok (some c) =>
        slowOutLoop P r input vc count ((output + 1) % P.outputs) (acc ++ [c])

/-- Slow-path processing of one VC (source lines 100-233): nothing is emitted
when the VC is empty, when its state is neither `vc_alloc` nor `active`, or
when it has not yet spent `_sw_alloc_delay` cycles in that state.  An
`active` VC only considers its assigned output (single loop iteration with
`output = GetOutputPort(vc)`, provided `_outputs > 0`); a `vc_alloc` VC scans
all outputs from its round-robin offset. -/
def slowVC (P : Params) (r : RouterState) (input vc : Nat) :
    Except Abort (List AddCall) :=
  let cb := r.buf input vc
  if cb.flits = [] then Except.ok []
  else if ¬(cb.state = VCState.vcAlloc ∨ cb.state = VCState.active) ∨
      cb.stateTime < P.swAllocDelay then Except.ok []
  else if cb.state = VCState.active then
    if P.outputs = 0 then Except.ok []
    else
      match slowOutBody P r input vc cb.outputPort with
      | Except.error a => Except.error a
      | Except.ok none => Except.ok []
      | Except.ok (some c) => Except.ok [c]
  else slowOutLoop P r input vc P.outputs (r.vcRROffset input vc) []

/-- The slow-path VC loop of one expanded input (source lines 98-236):
`count` VCs are visited, advancing by `vc + _input_speedup` and wrapping to
the speedup slot `s` when the VC index runs past `_vcs`. -/
def slowVCLoop (P : Params) (r : RouterState) (input s : Nat) :
    Nat → Nat → List AddCall → Except Abort (List AddCall)
  | 0, _, acc => Except.ok acc
  | count + 1, vc, acc =>
    match slowVC P r input vc with
    | Except.error a => Except.error a
    | Except.ok cs =>
      let vcn := vc + P.inputSpeedup
      slowVCLoop P r input s count (if vcn ≥ P.vcs then s else vcn) (acc ++ cs)

/-- The slow path for one expanded input (source lines 89-97): check the
round-robin alignment assertion of line 96, then run the VC loop starting at
`_sw_rr_offset[expanded_input]`. -/
def slowSlot (P : Params) (r : RouterState) (input s : Nat) :
    Except Abort (List AddCall) :=
  let ei := input * P.inputSpeedup + s
  if r.swRROffset ei % P.inputSpeedup = s then
    slowVCLoop P r input s P.vcs (r.swRROffset ei) []
  else Except.error Abort.rrOffsetMisaligned

/-- The speedup-slot loop of the slow path for one input. -/
def slowSlotLoop (P : Params) (r : RouterState) (input : Nat) :
    Nat → Nat → List AddCall → Except Abort (List AddCall)
  | 0, _, acc => Except.ok acc
  | count + 1, s, acc =>
    match slowSlot P r input s with
    | Except.error a => Except.error a
    | Except.ok cs => slowSlotLoop P r input count (s + 1) (acc ++ cs)

/-- All slow-path `AddRequest` calls of one input, in program order. -/
def slowPassInput (P : Params) (r : RouterState) (input : Nat) :
    Except Abort (List AddCall) :=
  slowSlotLoop P r input P.inputSpeedup 0 []

/-- The eligibility guard of the fast-path pass for one VC (source lines
243-271): the fast-path flag is set, the VC is non-empty, its state is
`vc_alloc` or `active`, and it has spent at least `_sw_alloc_delay` cycles in
that state. -/
def fastGuard (P : Params) (r : RouterState) (input vc : Nat) : Bool :=
  r.useFastPath input vc ∧ ¬(r.buf input vc).flits = [] ∧
    ((r.buf input vc).state = VCState.vcAlloc ∨
      (r.buf input vc).state = VCState.active) ∧
    P.swAllocDelay ≤ (r.buf input vc).stateTime

/-- Outcome of one output iteration of the fast-path request builder. -/
inductive FastStep where
  | occupied
  | emit (c : AddCall)
  | skip
deriving DecidableEq, Repr

/-- One output iteration of the fast-path request builder (source lines
301-380): if the crossbar slot already holds a request the fast path yields
(`occupied`); otherwise the same candidate scan as the slow path decides
whether a call is emitted.  Note that, unlike the slow path, the fast path
does not consult the switch-hold tables. -/
def fastOutBody (P : Params) (r : RouterState) (input vc output : Nat)
    (m : ReqMatrix) : Except Abort FastStep :=
  let cb := r.buf input vc
  let ei := expIn P input vc
  let eo := expOut P output input
  if (m ei eo).isSome then Except.ok FastStep.occupied
  else
    let cands := cb.routeSet output
    if cb.state = VCState.active ∧ cands.length = 0 then
      Except.error Abort.activeEmptyRouteFast
    else
      match scanOutVCs cb.state cb.outputVC (r.nextBuf output) cands none with
      | some p => Except.ok (FastStep.emit ⟨input, vc, ei, eo, p, cb.prio⟩)
      | none => Except.ok FastStep.skip

/-- The ascending output loop of the fast path for a VC in `vc_alloc` state
(source lines 294-385 without the `active` shortcuts): an occupied slot makes
the VC continue with the next output. -/
def fastOutLoop (P : Params) (r : RouterState) (input vc : Nat) :
    Nat → Nat → ReqMatrix → List AddCall → Except Abort (ReqMatrix × List AddCall)
  | 0, _, m, acc => Except.ok (m, acc)
  | count + 1, output, m, acc =>
    match fastOutBody P r input vc output m with
    | Except.error a => Except.error a
    | Except.ok FastStep.occupied => fastOutLoop P r input vc count (output + 1) m acc
    | Except.ok FastStep.skip => fastOutLoop P r input vc count (output + 1) m acc
    | Except.ok (FastStep.emit c) =>
        fastOutLoop P r input vc count (output + 1) (addRequest m c) (acc ++ [c])

/-- Fast-path request building for the selected VC (source lines 294-385):
an `active` VC considers only its assigned output — an occupied slot there
ends its search (`break`); a `vc_alloc` VC scans every output in ascending
order. -/
def fastVC (P : Params) (r : RouterState) (input vc : Nat) (m : ReqMatrix) :
    Except Abort (ReqMatrix × List AddCall) :=
  let cb := r.buf input vc
  if cb.state = VCState.active then
    if P.outputs = 0 then Except.ok (m, [])
    else
      match fastOutBody P r input vc cb.outputPort m with
      | Except.error a => Except.error a
      | Except.ok FastStep.occupied => Except.ok (m, [])
      | Except.ok FastStep.skip => Except.ok (m, [])
      | Except.ok (FastStep.emit c) => Except.ok (addRequest m c, [c])
  else fastOutLoop P r input vc P.outputs 0 m []

/-- The fast-path VC loop of one input (source lines 241-387): each VC that
passes the eligibility guard is selected as the input's fast-path VC; if one
was already selected the source hits `assert(fast_path_vcs[input] < 0)`
(line 287), modelled as `Abort.doubleFastPathVC`. -/
def fastVCLoop (P : Params) (r : RouterState) (input : Nat) :
    Nat → Nat → ReqMatrix → List AddCall → Int →
      Except Abort (ReqMatrix × List AddCall × Int)
  | 0, _, m, acc, fpv => Except.ok (m, acc, fpv)
  | count + 1, vc, m, acc, fpv =>
    if fastGuard P r input vc then
      if 0 ≤ fpv then Except.error Abort.doubleFastPathVC
      else
        match fastVC P r input vc m with
        | Except.error a => Except.error a
        | Except.ok (m2, cs) =>
            fastVCLoop P r input count (vc + 1) m2 (acc ++ cs) (Int.ofNat vc)
    else fastVCLoop P r input count (vc + 1) m acc fpv

/-- The whole fast-path pass of one input: all fast-path `AddRequest` calls,
the updated request matrix, and `fast_path_vcs[input]` (`-1` when no VC was
selected). -/
def fastPassInput (P : Params) (r : RouterState) (input : Nat) (m : ReqMatrix) :
    Except Abort (ReqMatrix × List AddCall × Int) :=
  fastVCLoop P r input P.vcs 0 m [] (-1)

/-- The request-building state: the allocator's request matrix, the logs of
all slow-path and fast-path `AddRequest` calls issued so far (in program
order), and the `fast_path_vcs` table. -/
structure BuildSt where
  m : ReqMatrix
  slowLog : List AddCall
  fastLog : List AddCall
  fpv : Nat → Int

/-- Point update of a `Nat`-indexed table. -/
def updNat {α : Type} (f : Nat → α) (i : Nat) (v : α) : Nat → α :=
  fun j => if j = i then v else f j

/-- Point update of a doubly-indexed table. -/
def upd2 {α : Type} (f : Nat → Nat → α) (i j : Nat) (v : α) : Nat → Nat → α :=
  fun a b => if a = i ∧ b = j then v else f a b

/-- Request building for one input: the slow path runs first and its calls
enter the allocator, then the fast path runs against the updated matrix
(source structure of the `for input` loop, lines 85-388). -/
def buildInput (P : Params) (r : RouterState) (input : Nat) (st : BuildSt) :
    Except Abort BuildSt :=
  match slowPassInput P r input with
  | Except.error a => Except.error a
  | Except.ok sc =>
    match fastPassInput P r input (applyCalls st.m sc) with
    | Except.error a => Except.error a
    | Except.ok (m2, fc, f) =>
        Except.ok ⟨m2, st.slowLog ++ sc, st.fastLog ++ fc, updNat st.fpv input f⟩

/-- The input loop of request building. -/
def buildLoop (P : Params) (r : RouterState) :
    Nat → Nat → BuildSt → Except Abort BuildSt
  | 0, _, st => Except.ok st
  | count + 1, input, st =>
    match buildInput P r input st with
    | Except.error a => Except.error a
    | Except.ok st2 => buildLoop P r count (input + 1) st2

/-- The whole request-building phase of `_Alloc` (source lines 81-388),
starting from a cleared allocator (`_sw_allocator->Clear()`). -/
def buildRequests (P : Params) (r : RouterState) : Except Abort BuildSt :=
  buildLoop P r P.inputs 0 ⟨fun _ _ => none, [], [], fun _ => -1⟩

/-- A credit record: the batched list of freed VC ids and the destination
router (`Credit::vc` together with `vc_cnt`, and `Credit::dest_router`). -/
structure Credit where
  vcList : List Nat
  destRouter : Nat
deriving DecidableEq, Repr

/-- Ghost record of one flit transfer across the crossbar: the physical
input and speedup slot it came from, the input-side VC (`vcn`), the expanded
output, the flit as it sat at the head of the queue (`fPre`) and the flit as
written to the crossbar pipeline (`fPost`). -/
structure Transfer where
  input : Nat
  s : Nat
  vcn : Nat
  eo : Nat
  fPre : Flit
  fPost : Flit
deriving DecidableEq, Repr

/-- The state threaded through grant resolution: the router state, the
crossbar pipeline slots written this cycle (`_crossbar_pipe`, pre-filled with
`NULL` by `WriteAll`), the credit-pipeline write log (`_credit_pipe->Write`
calls, one `(input, credit-or-null)` entry per call), the pending-VC queue
(`_queuing_vcs`), and the ghost transfer log. -/
structure ResolveSt where
  r : RouterState
  xbar : Nat → Option Flit
  creditLog : List (Nat × Option Credit)
  queuing : List (Nat × Nat)
  transfers : List Transfer

/-- Point update of a VC record. -/
def RouterState.setVC (r : RouterState) (i v : Nat) (g : VCRec → VCRec) :
    RouterState :=
  { r with buf := fun a b => if a = i ∧ b = v then g (r.buf i v) else r.buf a b }

/-- Point update of a downstream tracker. -/
def RouterState.setNext (r : RouterState) (o : Nat) (g : BufferState → BufferState) :
    RouterState :=
  { r with nextBuf := fun a => if a = o then g (r.nextBuf o) else r.nextBuf a }

/-- The winner-side fast-path bookkeeping of grant resolution (source lines
459-480): when the granted VC differs from the input's fast-path VC, the
fast-path VC (if any) loses its eligibility; the source asserts that its flag
was still set and that it has a front flit. -/
def fastBK (st : ResolveSt) (input : Nat) (fvc : Int) (vcn : Nat) :
    Except Abort ResolveSt :=
  if (vcn : Int) = fvc then Except.ok st
  else if 0 ≤ fvc then
    let fv := fvc.toNat
    if st.r.useFastPath input fv = false then Except.error Abort.fastFlagCleared
    else if (st.r.buf input fv).flits = [] then Except.error Abort.fastFrontMissing
    else
      Except.ok { st with
        r := { st.r with useFastPath := upd2 st.r.useFastPath input fv false } }
  else Except.ok st

/-- The output-VC selection scan of VC-allocation finalization (source lines
487-517): fold over the candidates keeping `(sel_vc, sel_prio)`, both
initialized to `-1`; an available, non-full candidate replaces the selection
only when its priority is strictly higher (`out_prio > sel_prio`), so ties
keep the first-seen candidate. -/
def selectOutVC (dest : BufferState) : List (Nat × Int) → Int × Int → Int × Int
  | [], acc => acc
  | c :: rest, acc =>
    let acc2 :=
      if dest.avail c.1 = false then acc
      else if dest.isFullFor c.1 then acc
      else if acc.2 < c.2 then ((c.1 : Int), c.2) else acc
    selectOutVC dest rest acc2

/-- VC-allocation finalization for a granted VC still in `vc_alloc` state
(source lines 484-543): re-scan the route set at the granted output, pick the
best available non-full output VC (aborting, line 530, when there is none),
transition the VC to `active`, bind it to `(output, sel_vc)`, reserve the
output VC downstream (`TakeBuffer`), and advance the VC's round-robin output
offset to `(output + 1) % _outputs`. -/
def vcAllocFinalize (P : Params) (st : ResolveSt) (input vcn output : Nat) :
    Except Abort ResolveSt :=
  let dest := st.r.nextBuf output
  let cands := (st.r.buf input vcn).routeSet output
  let sel := selectOutVC dest cands (-1, -1)
  if sel.1 < 0 then Except.error Abort.noEligibleOutVC
  else
    let sv := sel.1.toNat
    let r1 := st.r.setVC input vcn fun cb =>
      { cb with state := VCState.active, outputPort := output, outputVC := sv }
    let r2 := r1.setNext output fun d => { d with avail := updNat d.avail sv false }
    Except.ok { st with
      r := { r2 with vcRROffset := upd2 r2.vcRROffset input vcn ((output + 1) % P.outputs) } }

/-- The flit transfer of grant resolution for a VC in `active` state (source
lines 545-626): optionally record the switch-hold binding on both sides,
check the transfer assertions, dequeue the head flit, increment its hop
count, append the input-side VC id to the per-input credit batch (creating
the credit lazily) and point the credit at the flit's originating router,
overwrite the flit's `vc` field with the assigned output VC, report it to the
downstream tracker (`SendingFlit`), write it to the crossbar pipeline slot,
and on a tail flit return the VC to `idle`, re-enqueue it when more flits
wait, and clear the switch-hold binding on both sides.  Finally update the
slow-path round-robin offset (only for VCs off the fast path) and re-enable
the fast-path flag for a VC that emptied while off the fast path. -/
def activeTransfer (P : Params) (st : ResolveSt) (c : Option Credit)
    (input s vcn eo : Nat) : Except Abort (ResolveSt × Option Credit) :=
  let ei := input * P.inputSpeedup + s
  let output := eo / P.outputSpeedup
  let st1 :=
    if P.holdSwitchForPacket then
      { st with r := { st.r with
          holdIn := updNat st.r.holdIn ei (eo : Int),
          holdVC := updNat st.r.holdVC ei (vcn : Int),
          holdOut := updNat st.r.holdOut eo (ei : Int) } }
    else st
  let cb := st1.r.buf input vcn
  match cb.flits with
  | [] => Except.error Abort.transferEmpty
  | f0 :: rest =>
    if cb.outputPort ≠ output then Except.error Abort.wrongOutputPort
    else if (st1.r.nextBuf output).isFullFor cb.outputVC then Except.error Abort.destFull
    else if vcn ≠ f0.vc then Except.error Abort.vcMismatch
    else
      let f1 : Flit := { f0 with hops := f0.hops + 1 }
      let c0 : Credit := match c with | none => ⟨[], 0⟩ | some cr => cr
      let c2 : Credit := ⟨c0.vcList ++ [vcn], f1.fromRouter⟩
      let f2 : Flit := { f1 with vc := cb.outputVC }
      let r1 := st1.r.setVC input vcn fun b => { b with flits := rest }
      let r2 := r1.setNext output fun d =>
        { d with occ := updNat d.occ f2.vc (d.occ f2.vc + 1) }
      let st2 := { st1 with
        r := r2,
        xbar := updNat st1.xbar eo (some f2),
        transfers := st1.transfers ++ [⟨input, s, vcn, eo, f0, f2⟩] }
      let st3 :=
        if f0.tail then
          let r3 := st2.r.setVC input vcn fun b => { b with state := VCState.idle }
          { st2 with
            r := { r3 with
              holdIn := updNat r3.holdIn ei (-1),
              holdVC := updNat r3.holdVC ei (-1),
              holdOut := updNat r3.holdOut eo (-1) },
            queuing := if rest ≠ [] then st2.queuing ++ [(input, vcn)] else st2.queuing }
        else st2
      let st4 :=
        if st3.r.useFastPath input vcn = false then
          { st3 with r := { st3.r with
              swRROffset := updNat st3.r.swRROffset ei
                (if vcn + P.inputSpeedup < P.vcs then vcn + P.inputSpeedup else s) } }
        else st3
      let st5 :=
        if rest = [] ∧ st4.r.useFastPath input vcn = false then
          { st4 with r := { st4.r with useFastPath := upd2 st4.r.useFastPath input vcn true } }
        else st4
      Except.ok (st5, some c2)

/-- The granted-transfer part of grant resolution for one expanded input
(source lines 452-626): check the front flit exists, run the fast-path
bookkeeping, finalize VC allocation for a `vc_alloc` winner, and perform the
transfer for an `active` winner. -/
def resolveGrant (P : Params) (fvc : Int) (input s vcn eo : Nat)
    (st : ResolveSt) (c : Option Credit) : Except Abort (ResolveSt × Option Credit) :=
  if (st.r.buf input vcn).flits = [] then Except.error Abort.frontFlitMissing
  else
    match fastBK st input fvc vcn with
    | Except.error a => Except.error a
    | Except.ok st1 =>
      match
        (if (st1.r.buf input vcn).state = VCState.vcAlloc then
          vcAllocFinalize P st1 input vcn (eo / P.outputSpeedup)
        else Except.ok st1) with
      | Except.error a => Except.error a
      | Except.ok st2 =>
        if (st2.r.buf input vcn).state = VCState.active then
          activeTransfer P st2 c input s vcn eo
        else Except.ok (st2, c)

/-- Grant resolution for one expanded input (source lines 427-639): a
standing switch-hold binding pre-empts the allocator — its output is used
unless the held VC has emptied, which cancels the match for this cycle;
otherwise the allocator's grant (`OutputAssigned` / `ReadRequest`) names the
output and VC.  A resolved grant runs the fast-path bookkeeping, finalizes VC
allocation for a `vc_alloc` winner, and performs the transfer for an `active`
winner.  When the expanded input got nothing and its fast-path VC lives in
this speedup slot, that VC loses its fast-path eligibility (lines 627-639). -/
def resolveSlot (P : Params) (m : ReqMatrix) (gout : Nat → Int) (fvc : Int)
    (input s : Nat) (st : ResolveSt) (c : Option Credit) :
    Except Abort (ResolveSt × Option Credit) :=
  let ei := input * P.inputSpeedup + s
  let tgt : Except Abort (Int × Nat) :=
    if st.r.holdIn ei ≠ -1 then
      if st.r.holdIn ei < 0 then Except.error Abort.holdNegative
      else if st.r.holdVC ei < 0 then Except.error Abort.holdVCNegative
      else
        let vcn := (st.r.holdVC ei).toNat
        if (st.r.buf input vcn).flits = [] then Except.ok (-1, vcn)
        else Except.ok (st.r.holdIn ei, vcn)
    else
      let eoI := gout ei
      if 0 ≤ eoI then
        match m ei eoI.toNat with
        | some req => Except.ok (eoI, req.vc)
        | none => Except.error Abort.grantWithoutRequest
      else Except.ok (eoI, 0)
  match tgt with
  | Except.error a => Except.error a
  | Except.ok (eoI, vcn) =>
    if 0 ≤ eoI then resolveGrant P fvc input s vcn eoI.toNat st c
    else
      if 0 ≤ fvc ∧ fvc.toNat % P.inputSpeedup = s then
        let fv := fvc.toNat
        if st.r.useFastPath input fv = false then Except.error Abort.fastFlagCleared2
        else if (st.r.buf input fv).flits = [] then Except.error Abort.fastFrontMissing2
        else
          Except.ok
            ({ st with
              r := { st.r with useFastPath := upd2 st.r.useFastPath input fv false } }, c)
      else Except.ok (st, c)

/-- The speedup-slot loop of grant resolution for one input, threading the
per-input credit accumulator. -/
def slotLoop (P : Params) (m : ReqMatrix) (gout : Nat → Int) (fvc : Int)
    (input : Nat) :
    Nat → Nat → ResolveSt → Option Credit → Except Abort (ResolveSt × Option Credit)
  | 0, _, st, c => Except.ok (st, c)
  | count + 1, s, st, c =>
    match resolveSlot P m gout fvc input s st c with
    | Except.error a => Except.error a
    | Except.ok (st2, c2) => slotLoop P m gout fvc input count (s + 1) st2 c2

/-- Grant resolution for one input (source lines 423-642): run all speedup
slots, then write the per-input credit (or null) to the credit pipeline —
exactly one `_credit_pipe->Write(c, input)` per input. -/
def resolveInput (P : Params) (m : ReqMatrix) (gout : Nat → Int)
    (fpv : Nat → Int) (input : Nat) (st : ResolveSt) : Except Abort ResolveSt :=
  match slotLoop P m gout (fpv input) input P.inputSpeedup 0 st none with
  | Except.error a => Except.error a
  | Except.ok (st2, c) => Except.ok { st2 with creditLog := st2.creditLog ++ [(input, c)] }

/-- The input loop of grant resolution. -/
def inputLoop (P : Params) (m : ReqMatrix) (gout : Nat → Int) (fpv : Nat → Int) :
    Nat → Nat → ResolveSt → Except Abort ResolveSt
  | 0, _, st => Except.ok st
  | count + 1, input, st =>
    match resolveInput P m gout fpv input st with
    | Except.error a => Except.error a
    | Except.ok st2 => inputLoop P m gout fpv count (input + 1) st2

/-- The whole grant-resolution phase (source lines 413-642), starting from a
crossbar pipeline cleared to null (`_crossbar_pipe->WriteAll(NULL)`). -/
def resolvePhase (P : Params) (m : ReqMatrix) (gout : Nat → Int)
    (fpv : Nat → Int) (r : RouterState) : Except Abort ResolveSt :=
  inputLoop P m gout fpv P.inputs 0 ⟨r, fun _ => none, [], [], []⟩

/-- The whole `IQRouterSplit::_Alloc` step.  The pluggable switch allocator is
the parameter `policy`: given the request matrix it returns
`OutputAssigned(expanded_input)` for every expanded input (`-1` for no
grant). -/
def alloc (P : Params) (policy : ReqMatrix → Nat → Int) (r : RouterState) :
    Except Abort (BuildSt × ResolveSt) :=
  match buildRequests P r with
  | Except.error a => Except.error a
  | Except.ok b =>
    match resolvePhase P b.m (policy b.m) b.fpv r with
    | Except.error a => Except.error a
    | Except.ok res => Except.ok (b, res)

/-- Modelled from the spec: a simple concrete allocator policy used for the
concrete runs below — it grants every expanded input its first occupied
request slot (a policy satisfying the allocator contract on the states it is
applied to). -/
def firstReq (m : ReqMatrix) (ei : Nat) : Nat → Nat → Int
  | 0, _ => -1
  | count + 1, eo => if (m ei eo).isSome then (eo : Int) else firstReq m ei count (eo + 1)

/-- Modelled from the spec: the greedy allocator policy over all expanded
outputs. -/
def greedyAlloc (P : Params) (m : ReqMatrix) (ei : Nat) : Int :=
  firstReq m ei (P.outputs * P.outputSpeedup) 0

/-- `true` on `Except.ok`. -/
def exOk {α : Type} : Except Abort α → Bool
  | Except.ok _ => true
  | Except.error _ => false

/-- The slow-path `AddRequest` log of a completed request-building phase
(empty when the phase aborted). -/
def slowLogOf (P : Params) (r : RouterState) : List AddCall :=
  match buildRequests P r with
  | Except.ok st => st.slowLog
  | Except.error _ => []

/-- The fast-path `AddRequest` log of a completed request-building phase
(empty when the phase aborted). -/
def fastLogOf (P : Params) (r : RouterState) : List AddCall :=
  match buildRequests P r with
  | Except.ok st => st.fastLog
  | Except.error _ => []

/-- The request standing in one allocator slot after request building. -/
def builtSlot (P : Params) (r : RouterState) (ei eo : Nat) : Option (Option Request) :=
  match buildRequests P r with
  | Except.ok st => some (st.m ei eo)
  | Except.error _ => none

/-- The grant a policy hands one expanded input on the built request matrix. -/
def builtGrant (P : Params) (policy : ReqMatrix → Nat → Int) (r : RouterState)
    (ei : Nat) : Option Int :=
  match buildRequests P r with
  | Except.ok st => some (policy st.m ei)
  | Except.error _ => none

/-- The abort site of a whole `_Alloc` run (`none` when it completed). -/
def allocAbort (P : Params) (policy : ReqMatrix → Nat → Int) (r : RouterState) :
    Option Abort :=
  match alloc P policy r with
  | Except.ok _ => none
  | Except.error a => some a

/-- The switch-hold entries `(holdIn ei, holdVC ei, holdOut eo)` after a
completed `_Alloc` run. -/
def allocHolds (P : Params) (policy : ReqMatrix → Nat → Int) (r : RouterState)
    (ei eo : Nat) : Option (Int × Int × Int) :=
  match alloc P policy r with
  | Except.ok (_, res) => some (res.r.holdIn ei, res.r.holdVC ei, res.r.holdOut eo)
  | Except.error _ => none

/-- The transfer log of a completed `_Alloc` run. -/
def allocTransfers (P : Params) (policy : ReqMatrix → Nat → Int)
    (r : RouterState) : Option (List Transfer) :=
  match alloc P policy r with
  | Except.ok (_, res) => some res.transfers
  | Except.error _ => none

/-- The credit-pipeline write log of a completed `_Alloc` run. -/
def allocCredits (P : Params) (policy : ReqMatrix → Nat → Int)
    (r : RouterState) : Option (List (Nat × Option Credit)) :=
  match alloc P policy r with
  | Except.ok (_, res) => some res.creditLog
  | Except.error _ => none

/-- What is true of every `AddRequest` call the slow path issues: it names
the expanded input of its `(input, vc)` pair, its VC was non-empty, in
`vc_alloc` or `active` state for at least `_sw_alloc_delay` cycles — the
fast-path flag plays no role — and a call from an `active` VC targets the
expanded output of the VC's assigned output port. -/
def SlowCallOK (P : Params) (r : RouterState) (cc : AddCall) : Prop :=
  cc.ei = expIn P cc.input cc.vc ∧
  (r.buf cc.input cc.vc).flits ≠ [] ∧
  ((r.buf cc.input cc.vc).state = VCState.vcAlloc ∨
    (r.buf cc.input cc.vc).state = VCState.active) ∧
  P.swAllocDelay ≤ (r.buf cc.input cc.vc).stateTime ∧
  ((r.buf cc.input cc.vc).state = VCState.active →
    cc.eo = expOut P ((r.buf cc.input cc.vc).outputPort) cc.input)

/-- What is true of every `AddRequest` call the fast path issues: it names
the expanded input of its `(input, vc)` pair, its VC passed the fast-path
eligibility guard, and a call from an `active` VC targets the expanded output
of the VC's assigned output port. -/
def FastCallOK (P : Params) (r : RouterState) (cc : AddCall) : Prop :=
  cc.ei = expIn P cc.input cc.vc ∧
  fastGuard P r cc.input cc.vc = true ∧
  ((r.buf cc.input cc.vc).state = VCState.active →
    cc.eo = expOut P ((r.buf cc.input cc.vc).outputPort) cc.input)

/-- The request-building invariant maintained over the input loop: calls
logged so far come from inputs below `n` and satisfy their per-pass
properties, every slow-path call's slot is occupied in the current matrix,
and no slow-path call shares a crossbar slot with a fast-path call. -/
def BuildInv (P : Params) (r : RouterState) (n : Nat) (st : BuildSt) : Prop :=
  (∀ cc ∈ st.slowLog, cc.input < n ∧ SlowCallOK P r cc) ∧
  (∀ cc ∈ st.fastLog, cc.input < n ∧ FastCallOK P r cc) ∧
  (∀ cc ∈ st.slowLog, (st.m cc.ei cc.eo).isSome = true) ∧
  (∀ c1 ∈ st.slowLog, ∀ c2 ∈ st.fastLog, ¬(c1.ei = c2.ei ∧ c1.eo = c2.eo))

/-- Eligibility of a route-set candidate at resolution time: its output VC
is currently available and not full. -/
def eligOutVC (dest : BufferState) (c : Nat × Int) : Prop :=
  dest.avail c.1 = true ∧ dest.isFullFor c.1 = false

/-- A steady downstream tracker: every output VC available, occupancy zero,
capacity `cap`. -/
def freeBuf (cap : Nat) : BufferState :=
  ⟨fun _ => true, fun _ => 0, cap⟩

/-- Concrete scenario refuting C1: a single input and output, one VC whose
fast-path flag is set, in `vc_alloc` state with a queued flit and a route to
output 0. -/
def cexP1 : Params := ⟨1, 1, 1, 1, 1, 0, false⟩

/-- Tail flit sitting at VC 0 of input 0 in the C1 scenario. -/
def cexFlit1 : Flit := ⟨1, 0, 7, 0, true⟩

/-- Router state of the C1 scenario. -/
def cexR1 : RouterState where
  buf := fun _ _ =>
    ⟨VCState.vcAlloc, 0, [cexFlit1], fun o => if o = 0 then [(0, 0)] else [], 0, 0, 0⟩
  nextBuf := fun _ => freeBuf 1
  holdIn := fun _ => -1
  holdVC := fun _ => -1
  holdOut := fun _ => -1
  useFastPath := fun _ _ => true
  vcRROffset := fun _ _ => 0
  swRROffset := fun _ => 0

/-- Concrete scenario refuting C2: two inputs, two outputs; input 1 holds
expanded output 0 mid-packet, so the slow path of input 0 skips output 0 but
requests output 1, while the fast path of input 0 (which does not consult the
hold tables) finds slot (0, 0) free and requests it for the same VC. -/
def cexP2 : Params := ⟨2, 2, 1, 1, 1, 0, true⟩

/-- Head flit of input 0 in the C2 scenario. -/
def cexFlit2a : Flit := ⟨2, 0, 3, 0, true⟩

/-- Mid-packet flit of input 1 in the C2 scenario. -/
def cexFlit2b : Flit := ⟨3, 0, 4, 0, false⟩

/-- Router state of the C2 scenario. -/
def cexR2 : RouterState where
  buf := fun i _ =>
    if i = 0 then
      ⟨VCState.vcAlloc, 0, [cexFlit2a], fun o => if o ≤ 1 then [(1, 7)] else [], 0, 0, 0⟩
    else
      ⟨VCState.active, 5, [cexFlit2b, cexFlit2b],
        fun o => if o = 0 then [(0, 1)] else [], 0, 0, 0⟩
  nextBuf := fun _ => ⟨fun v => v = 1, fun _ => 0, 4⟩
  holdIn := fun ei => if ei = 1 then 0 else -1
  holdVC := fun ei => if ei = 1 then 0 else -1
  holdOut := fun eo => if eo = 0 then 1 else -1
  useFastPath := fun i _ => i = 0
  vcRROffset := fun _ _ => 0
  swRROffset := fun _ => 0

/-- Concrete scenario refuting C3: one input whose expanded input holds
output 0 on VC 0, but VC 0 is empty this cycle (its packet is stalled
upstream mid-packet). -/
def cexP3 : Params := ⟨1, 1, 1, 1, 1, 0, true⟩

/-- Router state of the C3 scenario. -/
def cexR3 : RouterState where
  buf := fun _ _ => ⟨VCState.active, 3, [], fun _ => [], 0, 0, 0⟩
  nextBuf := fun _ => freeBuf 1
  holdIn := fun _ => 0
  holdVC := fun _ => 0
  holdOut := fun _ => 0
  useFastPath := fun _ _ => false
  vcRROffset := fun _ _ => 0
  swRROffset := fun _ => 0

/-- Concrete scenario refuting C6: output speedup 2, two inputs whose only
route candidate is output VC 0 of output 0; both are granted (distinct
expanded outputs of the same output), the first grant reserves the VC
(`TakeBuffer`) and the second finds nothing eligible at resolution. -/
def cexP6 : Params := ⟨2, 1, 1, 2, 1, 0, false⟩

/-- Flit of input 0 in the C6 scenario. -/
def cexFlit6a : Flit := ⟨6, 0, 2, 0, true⟩

/-- Flit of input 1 in the C6 scenario. -/
def cexFlit6b : Flit := ⟨7, 0, 2, 0, true⟩

/-- Router state of the C6 scenario. -/
def cexR6 : RouterState where
  buf := fun i _ =>
    ⟨VCState.vcAlloc, 0, [if i = 0 then cexFlit6a else cexFlit6b],
      fun o => if o = 0 then [(0, 5)] else [], 0, 0, 0⟩
  nextBuf := fun _ => freeBuf 2
  holdIn := fun _ => -1
  holdVC := fun _ => -1
  holdOut := fun _ => -1
  useFastPath := fun _ _ => false
  vcRROffset := fun _ _ => 0
  swRROffset := fun _ => 0

/-- The credit record a list of same-input transfers produces: `none` when no
flit was transferred, otherwise the batched list of the input-side VC ids (in
transfer order) together with the originating router of the last transferred
flit. -/
def creditOf (ts : List Transfer) : Option Credit :=
  match ts.getLast? with
  | none => none
  | some tl => some ⟨ts.map (fun t => t.vcn), tl.fPost.fromRouter⟩

/-- Witness state for the hold-retry theorems: expanded input 0 holds
(output 0, VC 0), whose VC is `active` with one (tail) flit queued. -/
def wR3 : RouterState where
  buf := fun _ _ =>
    ⟨VCState.active, 1, [cexFlit1], fun o => if o = 0 then [(0, 0)] else [], 0, 0, 0⟩
  nextBuf := fun _ => freeBuf 1
  holdIn := fun _ => 0
  holdVC := fun _ => 0
  holdOut := fun _ => 0
  useFastPath := fun _ _ => false
  vcRROffset := fun _ _ => 0
  swRROffset := fun _ => 0

/-- Resolution state over `wR3`. -/
def stW3 : ResolveSt := ⟨wR3, fun _ => none, [], [], []⟩

/-- Resolution state over `cexR1`. -/
def stW1 : ResolveSt := ⟨cexR1, fun _ => none, [], [], []⟩

/-- Request matrix holding a single request (VC 0) in slot (0, 0). -/
def wM8 : ReqMatrix := fun a b => if a = 0 ∧ b = 0 then some ⟨0, 0, 0⟩ else none

/-- Grant table granting expanded output 0 to expanded input 0. -/
def wG8 : Nat → Int := fun ei => if ei = 0 then 0 else -1

/-- The transfer the `stW3` hold scenario performs. -/
def wT9 : Transfer := ⟨0, 0, 0, 0, cexFlit1, ⟨1, 0, 7, 1, true⟩⟩

/-- The transfer log after one grant-resolution slot (`none` on abort). -/
def slotTransfers (P : Params) (m : ReqMatrix) (gout : Nat → Int) (fvc : Int)
    (input s : Nat) (st : ResolveSt) (c : Option Credit) : Option (List Transfer) :=
  match resolveSlot P m gout fvc input s st c with
  | Except.ok (st2, _) => some st2.transfers
  | Except.error _ => none

/-- Resolution state over the `cexR6` router state, used to witness the
finalization theorems. -/
def stW6 : ResolveSt := ⟨cexR6, fun _ => none, [], [], []⟩


@[simp]
theorem updNat_same {α : Type} (f : Nat → α) (i : Nat) (v : α) : updNat f i v i = v := by
  simp [updNat]

theorem updNat_other {α : Type} (f : Nat → α) (i j : Nat) (v : α) (h : j ≠ i) :
    updNat f i v j = f j := by
  simp [updNat, h]

@[simp]
theorem upd2_same {α : Type} (f : Nat → Nat → α) (i j : Nat) (v : α) :
    upd2 f i j v i j = v := by
  simp [upd2]

theorem upd2_other {α : Type} (f : Nat → Nat → α) (i j a b : Nat) (v : α)
    (h : ¬(a = i ∧ b = j)) : upd2 f i j v a b = f a b := by
  simp [upd2, h]

theorem addRequest_isSome_self (m : ReqMatrix) (c : AddCall) :
    (addRequest m c c.ei c.eo).isSome := by
  simp only [addRequest, if_pos (And.intro rfl rfl)]
  cases m c.ei c.eo with
  | none => rfl
  | some r0 =>
    by_cases h : r0.prio < c.prio
    · simp [h]
    · simp [h]

theorem addRequest_other (m : ReqMatrix) (c : AddCall) (a b : Nat)
    (h : ¬(a = c.ei ∧ b = c.eo)) : addRequest m c a b = m a b := by
  simp [addRequest, h]

theorem addRequest_mono (m : ReqMatrix) (c : AddCall) (a b : Nat)
    (h : (m a b).isSome) : (addRequest m c a b).isSome := by
  by_cases hab : a = c.ei ∧ b = c.eo
  · obtain ⟨ha, hb⟩ := hab
    subst ha; subst hb
    exact addRequest_isSome_self m c
  · rw [addRequest_other m c a b hab]
    exact h

theorem applyCalls_mono (cs : List AddCall) (m : ReqMatrix) (a b : Nat)
    (h : (m a b).isSome) : (applyCalls m cs a b).isSome := by
  induction cs generalizing m with
  | nil => exact h
  | cons c rest ih => exact ih (addRequest m c) (addRequest_mono m c a b h)

theorem applyCalls_mem : ∀ (cs : List AddCall) (m : ReqMatrix) (c : AddCall),
    c ∈ cs → (applyCalls m cs c.ei c.eo).isSome
  | [], _, c, h => absurd h ((List.not_mem_nil c))
  | d :: rest, m, c, h => by
    rcases List.mem_cons.mp h with hc | hmem
    · subst hc
      exact applyCalls_mono rest _ _ _ (addRequest_isSome_self m c)
    · exact applyCalls_mem rest (addRequest m d) c hmem

theorem slowOutBody_fields {P : Params} {r : RouterState} {input vc output : Nat}
    {cc : AddCall} (h : slowOutBody P r input vc output = Except.ok (some cc)) :
    cc.input = input ∧ cc.vc = vc ∧ cc.ei = expIn P input vc ∧
      cc.eo = expOut P output input := by
  simp only [slowOutBody] at h
  split at h
  · split at h
    · simp at h
    · split at h
      · simp only [Except.ok.injEq, Option.some.injEq] at h
        subst h
        exact ⟨rfl, rfl, rfl, rfl⟩
      · simp at h
  · simp at h

theorem slowOutLoop_mem {P : Params} {r : RouterState} {input vc : Nat} :
    ∀ (count output : Nat) (acc cs : List AddCall),
      slowOutLoop P r input vc count output acc = Except.ok cs →
      ∀ cc, cc ∈ cs → cc ∈ acc ∨
        (cc.input = input ∧ cc.vc = vc ∧ cc.ei = expIn P input vc)
  | 0, _, acc, cs, h, cc, hm => by
    simp only [slowOutLoop] at h
    cases h
    exact Or.inl hm
  | count + 1, output, acc, cs, h, cc, hm => by
    simp only [slowOutLoop] at h
    split at h
    · simp at h
    · exact slowOutLoop_mem count _ acc cs h cc hm
    · rename_i c heq
      rcases slowOutLoop_mem count _ _ cs h cc hm with hacc | hp
      · rcases List.mem_append.mp hacc with h1 | h2
        · exact Or.inl h1
        · have hc : cc = c := List.mem_singleton.mp h2
          subst hc
          obtain ⟨h1, h2, h3, _⟩ := slowOutBody_fields heq
          exact Or.inr ⟨h1, h2, h3⟩
      · exact Or.inr hp

theorem slowVC_mem {P : Params} {r : RouterState} {input vc : Nat}
    {cs : List AddCall} (h : slowVC P r input vc = Except.ok cs)
    {cc : AddCall} (hm : cc ∈ cs) :
    cc.input = input ∧ cc.vc = vc ∧ SlowCallOK P r cc := by
  simp only [slowVC] at h
  by_cases h1 : (r.buf input vc).flits = []
  · rw [if_pos h1] at h; cases h; cases hm
  · rw [if_neg h1] at h
    by_cases h2 : ¬((r.buf input vc).state = VCState.vcAlloc ∨
        (r.buf input vc).state = VCState.active) ∨
        (r.buf input vc).stateTime < P.swAllocDelay
    · rw [if_pos h2] at h; cases h; cases hm
    · rw [if_neg h2] at h
      push_neg at h2
      obtain ⟨hst, htime⟩ := h2
      by_cases h3 : (r.buf input vc).state = VCState.active
      · rw [if_pos h3] at h
        by_cases h4 : P.outputs = 0
        · rw [if_pos h4] at h; cases h; cases hm
        · rw [if_neg h4] at h
          cases heq : slowOutBody P r input vc ((r.buf input vc).outputPort) with
          | error a => rw [heq] at h; simp at h
          | ok oc =>
            rw [heq] at h
            cases oc with
            | none => cases h; cases hm
            | some c =>
              cases h
              have hc : cc = c := List.mem_singleton.mp hm
              subst hc
              obtain ⟨e1, e2, e3, e4⟩ := slowOutBody_fields heq
              subst e1; subst e2
              exact ⟨rfl, rfl, e3, h1, hst, htime, fun _ => e4⟩
      · rw [if_neg h3] at h
        rcases slowOutLoop_mem P.outputs _ [] cs h cc hm with hacc | hp
        · cases hacc
        · obtain ⟨e1, e2, e3⟩ := hp
          subst e1; subst e2
          exact ⟨rfl, rfl, e3, h1, hst, htime, fun hx => absurd hx h3⟩

theorem slowVCLoop_mem {P : Params} {r : RouterState} {input s : Nat} :
    ∀ (count vc : Nat) (acc cs : List AddCall),
      slowVCLoop P r input s count vc acc = Except.ok cs →
      ∀ cc, cc ∈ cs → cc ∈ acc ∨ (cc.input = input ∧ SlowCallOK P r cc)
  | 0, _, acc, cs, h, cc, hm => by
    simp only [slowVCLoop] at h
    cases h
    exact Or.inl hm
  | count + 1, vc, acc, cs, h, cc, hm => by
    simp only [slowVCLoop] at h
    cases heq : slowVC P r input vc with
    | error a => rw [heq] at h; simp at h
    | ok cs1 =>
      rw [heq] at h
      rcases slowVCLoop_mem count _ _ cs h cc hm with hacc | hp
      · rcases List.mem_append.mp hacc with h1 | h2
        · exact Or.inl h1
        · obtain ⟨e1, _, hok⟩ := slowVC_mem heq h2
          exact Or.inr ⟨e1, hok⟩
      · exact Or.inr hp

theorem slowSlotLoop_mem {P : Params} {r : RouterState} {input : Nat} :
    ∀ (count s : Nat) (acc cs : List AddCall),
      slowSlotLoop P r input count s acc = Except.ok cs →
      ∀ cc, cc ∈ cs → cc ∈ acc ∨ (cc.input = input ∧ SlowCallOK P r cc)
  | 0, _, acc, cs, h, cc, hm => by
    simp only [slowSlotLoop] at h
    cases h
    exact Or.inl hm
  | count + 1, s, acc, cs, h, cc, hm => by
    simp only [slowSlotLoop] at h
    cases heq : slowSlot P r input s with
    | error a => rw [heq] at h; simp at h
    | ok cs1 =>
      rw [heq] at h
      rcases slowSlotLoop_mem count _ _ cs h cc hm with hacc | hp
      · rcases List.mem_append.mp hacc with h1 | h2
        · exact Or.inl h1
        · simp only [slowSlot] at heq
          split at heq
          · rcases slowVCLoop_mem P.vcs _ [] cs1 heq cc h2 with h3 | h3
            · cases h3
            · exact Or.inr h3
          · simp at heq
      · exact Or.inr hp

theorem slowPassInput_mem {P : Params} {r : RouterState} {input : Nat}
    {cs : List AddCall} (h : slowPassInput P r input = Except.ok cs)
    {cc : AddCall} (hm : cc ∈ cs) :
    cc.input = input ∧ SlowCallOK P r cc := by
  rcases slowSlotLoop_mem P.inputSpeedup 0 [] cs h cc hm with h1 | h1
  · cases h1
  · exact h1

theorem fastOutBody_emit {P : Params} {r : RouterState} {input vc output : Nat}
    {m : ReqMatrix} {cc : AddCall}
    (h : fastOutBody P r input vc output m = Except.ok (FastStep.emit cc)) :
    cc.input = input ∧ cc.vc = vc ∧ cc.ei = expIn P input vc ∧
      cc.eo = expOut P output input ∧ m cc.ei cc.eo = none := by
  simp only [fastOutBody] at h
  by_cases h1 : (m (expIn P input vc) (expOut P output input)).isSome
  · rw [if_pos h1] at h; simp at h
  · rw [if_neg h1] at h
    split at h
    · simp at h
    · split at h
      · simp only [Except.ok.injEq, FastStep.emit.injEq] at h
        subst h
        exact ⟨rfl, rfl, rfl, rfl, Option.not_isSome_iff_eq_none.mp h1⟩
      · simp at h

theorem fastOutLoop_mem {P : Params} {r : RouterState} {input vc : Nat} :
    ∀ (count output : Nat) (m : ReqMatrix) (acc : List AddCall) (m2 : ReqMatrix)
      (acc2 : List AddCall),
      fastOutLoop P r input vc count output m acc = Except.ok (m2, acc2) →
      ∀ cc, cc ∈ acc2 → cc ∈ acc ∨
        (cc.input = input ∧ cc.vc = vc ∧ cc.ei = expIn P input vc)
  | 0, _, m, acc, m2, acc2, h, cc, hm => by
    simp only [fastOutLoop] at h
    cases h
    exact Or.inl hm
  | count + 1, output, m, acc, m2, acc2, h, cc, hm => by
    simp only [fastOutLoop] at h
    cases heq : fastOutBody P r input vc output m with
    | error a => rw [heq] at h; simp at h
    | ok fs =>
      rw [heq] at h
      cases fs with
      | occupied => exact fastOutLoop_mem count _ _ _ _ _ h cc hm
      | skip => exact fastOutLoop_mem count _ _ _ _ _ h cc hm
      | emit c =>
        rcases fastOutLoop_mem count _ _ _ _ _ h cc hm with hacc | hp
        · rcases List.mem_append.mp hacc with h1 | h2
          · exact Or.inl h1
          · have hc : cc = c := List.mem_singleton.mp h2
            subst hc
            obtain ⟨e1, e2, e3, _, _⟩ := fastOutBody_emit heq
            exact Or.inr ⟨e1, e2, e3⟩
        · exact Or.inr hp

theorem fastOutLoop_avoid {P : Params} {r : RouterState} {input vc : Nat}
    {a b : Nat} :
    ∀ (count output : Nat) (m : ReqMatrix) (acc : List AddCall) (m2 : ReqMatrix)
      (acc2 : List AddCall),
      fastOutLoop P r input vc count output m acc = Except.ok (m2, acc2) →
      (m a b).isSome →
      (∀ cc, cc ∈ acc2 → cc ∈ acc ∨ ¬(cc.ei = a ∧ cc.eo = b)) ∧ m2 a b = m a b
  | 0, _, m, acc, m2, acc2, h, hs => by
    simp only [fastOutLoop] at h
    cases h
    exact ⟨fun cc hm => Or.inl hm, rfl⟩
  | count + 1, output, m, acc, m2, acc2, h, hs => by
    simp only [fastOutLoop] at h
    cases heq : fastOutBody P r input vc output m with
    | error a0 => rw [heq] at h; simp at h
    | ok fs =>
      rw [heq] at h
      cases fs with
      | occupied => exact fastOutLoop_avoid count _ _ _ _ _ h hs
      | skip => exact fastOutLoop_avoid count _ _ _ _ _ h hs
      | emit c =>
        obtain ⟨e1, e2, e3, e4, hnone⟩ := fastOutBody_emit heq
        have hcne : ¬(c.ei = a ∧ c.eo = b) := by
          rintro ⟨ha, hb⟩
          rw [ha, hb] at hnone
          rw [hnone] at hs
          cases hs
        have hpres : addRequest m c a b = m a b :=
          addRequest_other m c a b (fun hab => hcne ⟨hab.1.symm, hab.2.symm⟩)
        have hs2 : (addRequest m c a b).isSome := by rw [hpres]; exact hs
        obtain ⟨ih1, ih2⟩ := fastOutLoop_avoid count _ _ _ _ _ h hs2
        refine ⟨fun cc hm => ?_, by rw [ih2, hpres]⟩
        rcases ih1 cc hm with hacc | hne
        · rcases List.mem_append.mp hacc with h1 | h2
          · exact Or.inl h1
          · have hc : cc = c := List.mem_singleton.mp h2
            subst hc
            exact Or.inr hcne
        · exact Or.inr hne

theorem fastVC_mem {P : Params} {r : RouterState} {input vc : Nat}
    {m m2 : ReqMatrix} {acc2 : List AddCall}
    (h : fastVC P r input vc m = Except.ok (m2, acc2)) {cc : AddCall}
    (hm : cc ∈ acc2) :
    cc.input = input ∧ cc.vc = vc ∧ cc.ei = expIn P input vc ∧
      ((r.buf input vc).state = VCState.active →
        cc.eo = expOut P ((r.buf input vc).outputPort) input) := by
  simp only [fastVC] at h
  by_cases hact : (r.buf input vc).state = VCState.active
  · rw [if_pos hact] at h
    by_cases houts : P.outputs = 0
    · rw [if_pos houts] at h; cases h; cases hm
    · rw [if_neg houts] at h
      cases heq : fastOutBody P r input vc ((r.buf input vc).outputPort) m with
      | error a => rw [heq] at h; simp at h
      | ok fs =>
        rw [heq] at h
        cases fs with
        | occupied => cases h; cases hm
        | skip => cases h; cases hm
        | emit c =>
          cases h
          have hc : cc = c := List.mem_singleton.mp hm
          subst hc
          obtain ⟨e1, e2, e3, e4, _⟩ := fastOutBody_emit heq
          exact ⟨e1, e2, e3, fun _ => e4⟩
  · rw [if_neg hact] at h
    rcases fastOutLoop_mem P.outputs 0 m [] m2 acc2 h cc hm with h1 | h1
    · cases h1
    · exact ⟨h1.1, h1.2.1, h1.2.2, fun hx => absurd hx hact⟩

theorem fastVC_avoid {P : Params} {r : RouterState} {input vc : Nat}
    {m m2 : ReqMatrix} {acc2 : List AddCall} {a b : Nat}
    (h : fastVC P r input vc m = Except.ok (m2, acc2)) (hs : (m a b).isSome) :
    (∀ cc, cc ∈ acc2 → ¬(cc.ei = a ∧ cc.eo = b)) ∧ m2 a b = m a b := by
  simp only [fastVC] at h
  by_cases hact : (r.buf input vc).state = VCState.active
  · rw [if_pos hact] at h
    by_cases houts : P.outputs = 0
    · rw [if_pos houts] at h
      cases h
      exact ⟨fun cc hm => absurd hm (List.not_mem_nil cc), rfl⟩
    · rw [if_neg houts] at h
      cases heq : fastOutBody P r input vc ((r.buf input vc).outputPort) m with
      | error a0 => rw [heq] at h; simp at h
      | ok fs =>
        rw [heq] at h
        cases fs with
        | occupied =>
          cases h
          exact ⟨fun cc hm => absurd hm (List.not_mem_nil cc), rfl⟩
        | skip =>
          cases h
          exact ⟨fun cc hm => absurd hm (List.not_mem_nil cc), rfl⟩
        | emit c =>
          cases h
          obtain ⟨_, _, _, _, hnone⟩ := fastOutBody_emit heq
          have hcne : ¬(c.ei = a ∧ c.eo = b) := by
            rintro ⟨ha, hb⟩
            rw [ha, hb] at hnone
            rw [hnone] at hs
            cases hs
          refine ⟨fun cc hm => ?_, ?_⟩
          · have hc : cc = c := List.mem_singleton.mp hm
            subst hc
            exact hcne
          · exact addRequest_other m c a b (fun hab => hcne ⟨hab.1.symm, hab.2.symm⟩)
  · rw [if_neg hact] at h
    obtain ⟨h1, h2⟩ := fastOutLoop_avoid P.outputs 0 m [] m2 acc2 h hs
    refine ⟨fun cc hm => ?_, h2⟩
    rcases h1 cc hm with hacc | hne
    · cases hacc
    · exact hne

theorem fastVCLoop_mem {P : Params} {r : RouterState} {input : Nat} :
    ∀ (count vc : Nat) (m : ReqMatrix) (acc : List AddCall) (fpv : Int)
      (m2 : ReqMatrix) (acc2 : List AddCall) (f2 : Int),
      fastVCLoop P r input count vc m acc fpv = Except.ok (m2, acc2, f2) →
      ∀ cc, cc ∈ acc2 → cc ∈ acc ∨ (cc.input = input ∧ FastCallOK P r cc)
  | 0, _, m, acc, fpv, m2, acc2, f2, h, cc, hm => by
    simp only [fastVCLoop] at h
    cases h
    exact Or.inl hm
  | count + 1, vc, m, acc, fpv, m2, acc2, f2, h, cc, hm => by
    simp only [fastVCLoop] at h
    by_cases hguard : fastGuard P r input vc = true
    · rw [if_pos hguard] at h
      by_cases hf : (0 : Int) ≤ fpv
      · rw [if_pos hf] at h; simp at h
      · rw [if_neg hf] at h
        cases heq : fastVC P r input vc m with
        | error a => rw [heq] at h; simp at h
        | ok p =>
          rw [heq] at h
          rcases fastVCLoop_mem count _ _ _ _ _ _ _ h cc hm with hacc | hp
          · rcases List.mem_append.mp hacc with h1 | h2
            · exact Or.inl h1
            · obtain ⟨e1, e2, e3, e4⟩ := fastVC_mem heq h2
              subst e1; subst e2
              exact Or.inr ⟨rfl, e3, hguard, e4⟩
          · exact Or.inr hp
    · rw [if_neg hguard] at h
      exact fastVCLoop_mem count _ _ _ _ _ _ _ h cc hm

theorem fastVCLoop_avoid {P : Params} {r : RouterState} {input : Nat} {a b : Nat} :
    ∀ (count vc : Nat) (m : ReqMatrix) (acc : List AddCall) (fpv : Int)
      (m2 : ReqMatrix) (acc2 : List AddCall) (f2 : Int),
      fastVCLoop P r input count vc m acc fpv = Except.ok (m2, acc2, f2) →
      (m a b).isSome →
      (∀ cc, cc ∈ acc2 → cc ∈ acc ∨ ¬(cc.ei = a ∧ cc.eo = b)) ∧ m2 a b = m a b
  | 0, _, m, acc, fpv, m2, acc2, f2, h, hs => by
    simp only [fastVCLoop] at h
    cases h
    exact ⟨fun cc hm => Or.inl hm, rfl⟩
  | count + 1, vc, m, acc, fpv, m2, acc2, f2, h, hs => by
    simp only [fastVCLoop] at h
    by_cases hguard : fastGuard P r input vc = true
    · rw [if_pos hguard] at h
      by_cases hf : (0 : Int) ≤ fpv
      · rw [if_pos hf] at h; simp at h
      · rw [if_neg hf] at h
        cases heq : fastVC P r input vc m with
        | error a0 => rw [heq] at h; simp at h
        | ok p =>
          rw [heq] at h
          obtain ⟨hvc1, hvc2⟩ := fastVC_avoid heq hs
          have hs2 : (p.1 a b).isSome := by rw [hvc2]; exact hs
          obtain ⟨ih1, ih2⟩ := fastVCLoop_avoid count _ _ _ _ _ _ _ h hs2
          refine ⟨fun cc hm => ?_, by rw [ih2, hvc2]⟩
          rcases ih1 cc hm with hacc | hne
          · rcases List.mem_append.mp hacc with h1 | h2
            · exact Or.inl h1
            · exact Or.inr (hvc1 cc h2)
          · exact Or.inr hne
    · rw [if_neg hguard] at h
      exact fastVCLoop_avoid count _ _ _ _ _ _ _ h hs

theorem fastVCLoop_sel {P : Params} {r : RouterState} {input : Nat} :
    ∀ (count vc : Nat) (m : ReqMatrix) (acc : List AddCall) (fpv : Int)
      (m2 : ReqMatrix) (acc2 : List AddCall) (f2 : Int),
      fastVCLoop P r input count vc m acc fpv = Except.ok (m2, acc2, f2) →
      (0 ≤ fpv →
        (∀ v, vc ≤ v → v < vc + count → fastGuard P r input v = false) ∧ f2 = fpv) ∧
      (fpv < 0 →
        (f2 = fpv ∧ ∀ v, vc ≤ v → v < vc + count → fastGuard P r input v = false) ∨
        (∃ v, vc ≤ v ∧ v < vc + count ∧ f2 = (v : Int) ∧
          fastGuard P r input v = true ∧
          ∀ w, vc ≤ w → w < vc + count → w ≠ v → fastGuard P r input w = false))
  | 0, vc, m, acc, fpv, m2, acc2, f2, h => by
    simp only [fastVCLoop] at h
    cases h
    constructor
    · intro _
      exact ⟨fun v hv1 hv2 => absurd hv2 (by omega), rfl⟩
    · intro _
      exact Or.inl ⟨rfl, fun v hv1 hv2 => absurd hv2 (by omega)⟩
  | count + 1, vc, m, acc, fpv, m2, acc2, f2, h => by
    simp only [fastVCLoop] at h
    by_cases hguard : fastGuard P r input vc = true
    · rw [if_pos hguard] at h
      by_cases hf : (0 : Int) ≤ fpv
      · rw [if_pos hf] at h; simp at h
      · rw [if_neg hf] at h
        cases heq : fastVC P r input vc m with
        | error a0 => rw [heq] at h; simp at h
        | ok p =>
          rw [heq] at h
          obtain ⟨ihpos, _⟩ := fastVCLoop_sel count (vc + 1) _ _ _ _ _ _ h
          obtain ⟨ihg, ihf⟩ := ihpos (by exact Int.ofNat_nonneg vc)
          constructor
          · intro hge
            exact absurd hge hf
          · intro _
            refine Or.inr ⟨vc, Nat.le_refl vc, by omega, by rw [ihf]; rfl, hguard, ?_⟩
            intro w hw1 hw2 hwne
            rcases Nat.lt_or_ge w (vc + 1) with hlt | hge
            · have : w = vc := by omega
              exact absurd this hwne
            · exact ihg w hge (by omega)
    · rw [if_neg hguard] at h
      have hgf : fastGuard P r input vc = false := by
        cases hx : fastGuard P r input vc
        · rfl
        · exact absurd hx hguard
      obtain ⟨ihpos, ihneg⟩ := fastVCLoop_sel count (vc + 1) _ _ _ _ _ _ h
      constructor
      · intro hge
        obtain ⟨ihg, ihf⟩ := ihpos hge
        refine ⟨fun v hv1 hv2 => ?_, ihf⟩
        rcases Nat.lt_or_ge v (vc + 1) with hlt | hge2
        · have : v = vc := by omega
          rw [this]; exact hgf
        · exact ihg v hge2 (by omega)
      · intro hneg
        rcases ihneg hneg with ⟨ihf, ihg⟩ | ⟨v, hv1, hv2, hv3, hv4, hv5⟩
        · refine Or.inl ⟨ihf, fun v hvv1 hvv2 => ?_⟩
          rcases Nat.lt_or_ge v (vc + 1) with hlt | hge2
          · have : v = vc := by omega
            rw [this]; exact hgf
          · exact ihg v hge2 (by omega)
        · refine Or.inr ⟨v, by omega, by omega, hv3, hv4, fun w hw1 hw2 hwne => ?_⟩
          rcases Nat.lt_or_ge w (vc + 1) with hlt | hge2
          · have : w = vc := by omega
            rw [this]; exact hgf
          · exact hv5 w hge2 (by omega) hwne

theorem fastPassInput_mem {P : Params} {r : RouterState} {input : Nat}
    {m m2 : ReqMatrix} {acc2 : List AddCall} {f2 : Int}
    (h : fastPassInput P r input m = Except.ok (m2, acc2, f2)) {cc : AddCall}
    (hm : cc ∈ acc2) : cc.input = input ∧ FastCallOK P r cc := by
  rcases fastVCLoop_mem P.vcs 0 m [] (-1) m2 acc2 f2 h cc hm with h1 | h1
  · cases h1
  · exact h1

theorem fastPassInput_avoid {P : Params} {r : RouterState} {input : Nat}
    {m m2 : ReqMatrix} {acc2 : List AddCall} {f2 : Int} {a b : Nat}
    (h : fastPassInput P r input m = Except.ok (m2, acc2, f2))
    (hs : (m a b).isSome) :
    (∀ cc, cc ∈ acc2 → ¬(cc.ei = a ∧ cc.eo = b)) ∧ m2 a b = m a b := by
  obtain ⟨h1, h2⟩ := fastVCLoop_avoid P.vcs 0 m [] (-1) m2 acc2 f2 h hs
  refine ⟨fun cc hm => ?_, h2⟩
  rcases h1 cc hm with hacc | hne
  · cases hacc
  · exact hne

theorem expIn_inj {P : Params} (hS : 0 < P.inputSpeedup) {i1 v1 i2 v2 : Nat}
    (h : expIn P i1 v1 = expIn P i2 v2) : i1 = i2 := by
  have h1 : v1 % P.inputSpeedup < P.inputSpeedup := Nat.mod_lt v1 hS
  have h2 : v2 % P.inputSpeedup < P.inputSpeedup := Nat.mod_lt v2 hS
  have hd : expIn P i1 v1 / P.inputSpeedup = i1 := by
    simp only [expIn]
    rw [Nat.mul_comm, Nat.mul_add_div hS, Nat.div_eq_of_lt h1, Nat.add_zero]
  have hd2 : expIn P i2 v2 / P.inputSpeedup = i2 := by
    simp only [expIn]
    rw [Nat.mul_comm, Nat.mul_add_div hS, Nat.div_eq_of_lt h2, Nat.add_zero]
  rw [← hd, ← hd2, h]

theorem buildInput_inv {P : Params} {r : RouterState} {input : Nat}
    {st st2 : BuildSt} (hS : 0 < P.inputSpeedup)
    (h : buildInput P r input st = Except.ok st2) (hinv : BuildInv P r input st) :
    BuildInv P r (input + 1) st2 := by
  obtain ⟨hslow, hfast, hocc, hexcl⟩ := hinv
  simp only [buildInput] at h
  cases hsc : slowPassInput P r input with
  | error a => rw [hsc] at h; simp at h
  | ok sc =>
    rw [hsc] at h
    simp only [] at h
    cases hfc : fastPassInput P r input (applyCalls st.m sc) with
    | error a => rw [hfc] at h; simp at h
    | ok trip =>
      rw [hfc] at h
      obtain ⟨m2, fc, f⟩ := trip
      cases h
      have hmidocc : ∀ cc ∈ st.slowLog ++ sc, (applyCalls st.m sc cc.ei cc.eo).isSome = true := by
        intro cc hm
        rcases List.mem_append.mp hm with h1 | h1
        · exact applyCalls_mono sc st.m cc.ei cc.eo (hocc cc h1)
        · exact applyCalls_mem sc st.m cc h1
      refine ⟨?_, ?_, ?_, ?_⟩
      · intro cc hm
        replace hm : cc ∈ st.slowLog ++ sc := hm
        rcases List.mem_append.mp hm with h1 | h1
        · obtain ⟨ha, hb⟩ := hslow cc h1
          exact ⟨Nat.lt_succ_of_lt ha, hb⟩
        · obtain ⟨ha, hb⟩ := slowPassInput_mem hsc h1
          exact ⟨by omega, hb⟩
      · intro cc hm
        replace hm : cc ∈ st.fastLog ++ fc := hm
        rcases List.mem_append.mp hm with h1 | h1
        · obtain ⟨ha, hb⟩ := hfast cc h1
          exact ⟨Nat.lt_succ_of_lt ha, hb⟩
        · obtain ⟨ha, hb⟩ := fastPassInput_mem hfc h1
          exact ⟨by omega, hb⟩
      · intro cc hm
        replace hm : cc ∈ st.slowLog ++ sc := hm
        have hmid : (applyCalls st.m sc cc.ei cc.eo).isSome = true := hmidocc cc hm
        obtain ⟨_, hpres⟩ := fastPassInput_avoid hfc hmid
        show (m2 cc.ei cc.eo).isSome = true
        rw [hpres]
        exact hmid
      · intro c1 hm1 c2 hm2
        replace hm1 : c1 ∈ st.slowLog ++ sc := hm1
        replace hm2 : c2 ∈ st.fastLog ++ fc := hm2
        rcases List.mem_append.mp hm2 with h2 | h2
        · rcases List.mem_append.mp hm1 with h1 | h1
          · exact hexcl c1 h1 c2 h2
          · obtain ⟨ha1, hb1⟩ := slowPassInput_mem hsc h1
            obtain ⟨ha2, _⟩ := hfast c2 h2
            obtain ⟨he1, _⟩ := hb1
            obtain ⟨he2, _, _⟩ := (hfast c2 h2).2
            rintro ⟨hei, _⟩
            rw [he1, he2] at hei
            have : c1.input = c2.input := expIn_inj hS hei
            omega
        · have hmid : (applyCalls st.m sc c1.ei c1.eo).isSome = true := hmidocc c1 hm1
          obtain ⟨havoid, _⟩ := fastPassInput_avoid hfc hmid
          intro hab
          exact havoid c2 h2 ⟨hab.1.symm, hab.2.symm⟩

theorem buildLoop_inv {P : Params} {r : RouterState} (hS : 0 < P.inputSpeedup) :
    ∀ (count input : Nat) (st st2 : BuildSt),
      buildLoop P r count input st = Except.ok st2 →
      BuildInv P r input st → BuildInv P r (input + count) st2
  | 0, input, st, st2, h, hinv => by
    simp only [buildLoop] at h
    cases h
    exact hinv
  | count + 1, input, st, st2, h, hinv => by
    simp only [buildLoop] at h
    cases heq : buildInput P r input st with
    | error a => rw [heq] at h; simp at h
    | ok stm =>
      rw [heq] at h
      have := buildLoop_inv hS count (input + 1) stm st2 h (buildInput_inv hS heq hinv)
      have harith : input + 1 + count = input + (count + 1) := by omega
      rw [harith] at this
      exact this

theorem buildRequests_inv {P : Params} {r : RouterState} {st : BuildSt}
    (hS : 0 < P.inputSpeedup) (h : buildRequests P r = Except.ok st) :
    BuildInv P r P.inputs st := by
  have h0 : BuildInv P r 0 ⟨fun _ _ => none, [], [], fun _ => -1⟩ := by
    refine ⟨?_, ?_, ?_, ?_⟩ <;> intro cc hm <;> cases hm
  have := buildLoop_inv hS P.inputs 0 _ st h h0
  simpa using this

theorem buildLoop_mem {P : Params} {r : RouterState} :
    ∀ (count input : Nat) (st st2 : BuildSt),
      buildLoop P r count input st = Except.ok st2 →
      (∀ cc ∈ st2.slowLog, cc ∈ st.slowLog ∨ SlowCallOK P r cc) ∧
      (∀ cc ∈ st2.fastLog, cc ∈ st.fastLog ∨ FastCallOK P r cc)
  | 0, input, st, st2, h => by
    simp only [buildLoop] at h
    cases h
    exact ⟨fun cc hm => Or.inl hm, fun cc hm => Or.inl hm⟩
  | count + 1, input, st, st2, h => by
    simp only [buildLoop] at h
    cases heq : buildInput P r input st with
    | error a => rw [heq] at h; simp at h
    | ok stm =>
      rw [heq] at h
      obtain ⟨ih1, ih2⟩ := buildLoop_mem count (input + 1) stm st2 h
      simp only [buildInput] at heq
      cases hsc : slowPassInput P r input with
      | error a => rw [hsc] at heq; simp at heq
      | ok sc =>
        rw [hsc] at heq
        simp only [] at heq
        cases hfc : fastPassInput P r input (applyCalls st.m sc) with
        | error a => rw [hfc] at heq; simp at heq
        | ok trip =>
          rw [hfc] at heq
          obtain ⟨m2, fc, f⟩ := trip
          cases heq
          constructor
          · intro cc hm
            rcases ih1 cc hm with h1 | h1
            · replace h1 : cc ∈ st.slowLog ++ sc := h1
              rcases List.mem_append.mp h1 with h2 | h2
              · exact Or.inl h2
              · exact Or.inr (slowPassInput_mem hsc h2).2
            · exact Or.inr h1
          · intro cc hm
            rcases ih2 cc hm with h1 | h1
            · replace h1 : cc ∈ st.fastLog ++ fc := h1
              rcases List.mem_append.mp h1 with h2 | h2
              · exact Or.inl h2
              · exact Or.inr (fastPassInput_mem hfc h2).2
            · exact Or.inr h1

theorem buildRequests_mem {P : Params} {r : RouterState} {st : BuildSt}
    (h : buildRequests P r = Except.ok st) :
    (∀ cc ∈ st.slowLog, SlowCallOK P r cc) ∧
    (∀ cc ∈ st.fastLog, FastCallOK P r cc) := by
  obtain ⟨h1, h2⟩ := buildLoop_mem P.inputs 0 _ st h
  constructor
  · intro cc hm
    rcases h1 cc hm with h3 | h3
    · cases h3
    · exact h3
  · intro cc hm
    rcases h2 cc hm with h3 | h3
    · cases h3
    · exact h3

/-- C1 (counterexample): the claim "the slow path skips every VC whose
fast-path eligibility flag is set" is false on the code: in the `cexR1`
state, VC 0 at input 0 has its fast-path flag set, yet the slow-path pass
issues an allocator request for it. -/
theorem C1_counterexample :
    cexR1.useFastPath 0 0 = true ∧
    slowLogOf cexP1 cexR1 = [⟨0, 0, 0, 0, 0, 0⟩] := by
  decide

/-- C1 (amended): the slow-path pass does not consult the fast-path flag at
all; a VC receives a slow-path request exactly when it is non-empty, in
`vc_alloc` or `active` state, and has been so for at least `_sw_alloc_delay`
cycles — whether or not it is flagged fast-path-eligible. -/
theorem C1_slow_request_needs_only_state_and_timer :
    ∀ (P : Params) (r : RouterState) (cc : AddCall), cc ∈ slowLogOf P r →
      (r.buf cc.input cc.vc).flits ≠ [] ∧
      ((r.buf cc.input cc.vc).state = VCState.vcAlloc ∨
        (r.buf cc.input cc.vc).state = VCState.active) ∧
      P.swAllocDelay ≤ (r.buf cc.input cc.vc).stateTime := by
  intro P r cc hm
  unfold slowLogOf at hm
  cases hb : buildRequests P r with
  | error a => rw [hb] at hm; cases hm
  | ok st =>
    rw [hb] at hm
    obtain ⟨_, h2, h3, h4, _⟩ := (buildRequests_mem hb).1 cc hm
    exact ⟨h2, h3, h4⟩

/-- C1 (witness): the amended statement applied to the `cexR1` state. -/
theorem C1_witness :
    (cexR1.buf 0 0).flits ≠ [] ∧
    ((cexR1.buf 0 0).state = VCState.vcAlloc ∨
      (cexR1.buf 0 0).state = VCState.active) ∧
    cexP1.swAllocDelay ≤ (cexR1.buf 0 0).stateTime :=
  C1_slow_request_needs_only_state_and_timer cexP1 cexR1 ⟨0, 0, 0, 0, 0, 0⟩ (by decide)

/-- C2 (counterexample): the claim "at most one of the two request-building
passes calls add-request with a given (expanded input, VC) in a cycle" is
false on the code: in the `cexR2` state both the slow path (for expanded
output 1) and the fast path (for expanded output 0, whose slow-path request
was suppressed by a switch hold the fast path does not check) call
`AddRequest` for expanded input 0, VC 0. -/
theorem C2_counterexample :
    cexR2.useFastPath 0 0 = true ∧
    slowLogOf cexP2 cexR2 = [⟨0, 0, 0, 1, 7, 0⟩] ∧
    fastLogOf cexP2 cexR2 = [⟨0, 0, 0, 0, 7, 0⟩] := by
  decide

/-- C2 (amended): per crossbar slot (expanded input, expanded output), at
most one of the two passes issues a request in a cycle: no slow-path call and
fast-path call of the same cycle name the same slot (the fast path defers to
any request already standing in the slot). -/
theorem C2_slot_mutual_exclusion :
    ∀ (P : Params) (r : RouterState), 0 < P.inputSpeedup →
      ∀ c1 ∈ slowLogOf P r, ∀ c2 ∈ fastLogOf P r,
        ¬(c1.ei = c2.ei ∧ c1.eo = c2.eo) := by
  intro P r hS c1 hm1 c2 hm2
  unfold slowLogOf at hm1
  unfold fastLogOf at hm2
  cases hb : buildRequests P r with
  | error a => rw [hb] at hm1; cases hm1
  | ok st =>
    rw [hb] at hm1
    rw [hb] at hm2
    obtain ⟨_, _, _, hexcl⟩ := buildRequests_inv hS hb
    exact hexcl c1 hm1 c2 hm2

/-- C2 (witness): the amended statement applied to the `cexR2` state — the
two calls of the counterexample indeed target different crossbar slots. -/
theorem C2_witness : ¬((0 : Nat) = 0 ∧ (1 : Nat) = 0) :=
  C2_slot_mutual_exclusion cexP2 cexR2 (by decide) ⟨0, 0, 0, 1, 7, 0⟩ (by decide)
    ⟨0, 0, 0, 0, 7, 0⟩ (by decide)

/-- C5 (confirmed): for every input and cycle, at most one VC passes the
fast-path selection guard whenever the pass completes; two distinct
guard-passing VCs make the pass abort (the line-287 assertion); and on
completion `fast_path_vcs[input]` is `-1` with no guard-passer, or names the
unique guard-passing VC. -/
theorem C5_one_fast_path_vc_per_input :
    ∀ (P : Params) (r : RouterState) (input : Nat) (m : ReqMatrix),
      ((∃ out, fastPassInput P r input m = Except.ok out) →
        ∀ v1 v2, v1 < P.vcs → v2 < P.vcs → fastGuard P r input v1 = true →
          fastGuard P r input v2 = true → v1 = v2) ∧
      (∀ v1 v2, v1 < P.vcs → v2 < P.vcs → v1 ≠ v2 → fastGuard P r input v1 = true →
        fastGuard P r input v2 = true →
          ∀ out, fastPassInput P r input m ≠ Except.ok out) ∧
      (∀ m2 cs f, fastPassInput P r input m = Except.ok (m2, cs, f) →
        (f = -1 ∧ ∀ v, v < P.vcs → fastGuard P r input v = false) ∨
        (∃ v, v < P.vcs ∧ f = (v : Int) ∧ fastGuard P r input v = true)) := by
  intro P r input m
  have huniq : (∃ out, fastPassInput P r input m = Except.ok out) →
      ∀ v1 v2, v1 < P.vcs → v2 < P.vcs → fastGuard P r input v1 = true →
        fastGuard P r input v2 = true → v1 = v2 := by
    rintro ⟨⟨m2, cs, f⟩, hout⟩ v1 v2 hv1 hv2 hg1 hg2
    have hsel := (fastVCLoop_sel P.vcs 0 m [] (-1) m2 cs f hout).2 (by decide)
    rcases hsel with ⟨_, hall⟩ | ⟨v, _, hvlt, _, _, hother⟩
    · rw [hall v1 (Nat.zero_le v1) (by omega)] at hg1
      cases hg1
    · by_cases h1 : v1 = v
      · by_cases h2 : v2 = v
        · rw [h1, h2]
        · rw [hother v2 (Nat.zero_le v2) (by omega) h2] at hg2
          cases hg2
      · rw [hother v1 (Nat.zero_le v1) (by omega) h1] at hg1
        cases hg1
  refine ⟨huniq, ?_, ?_⟩
  · intro v1 v2 hv1 hv2 hne hg1 hg2 out hout
    exact hne (huniq ⟨out, hout⟩ v1 v2 hv1 hv2 hg1 hg2)
  · intro m2 cs f hout
    have hsel := (fastVCLoop_sel P.vcs 0 m [] (-1) m2 cs f hout).2 (by decide)
    rcases hsel with ⟨hf, hall⟩ | ⟨v, _, hvlt, hfv, hg, _⟩
    · exact Or.inl ⟨hf, fun v hv => hall v (Nat.zero_le v) (by omega)⟩
    · exact Or.inr ⟨v, by omega, hfv, hg⟩

/-- C5 (witness): in the `cexR1` state, the fast pass of input 0 completes
and the uniqueness hypotheses of the theorem are satisfiable (VC 0 passes the
guard). -/
theorem C5_witness : (0 : Nat) = 0 :=
  (C5_one_fast_path_vc_per_input cexP1 cexR1 0 (fun _ _ => none)).1
    ⟨_, rfl⟩ 0 0 (by decide) (by decide) (by decide) (by decide)

/-- Run a computation that is known to complete: reduce a goal about the
`Except.ok` payload to a universally quantified statement. -/
theorem exceptRun {α : Type} (e : Except Abort α) (Q : α → Prop)
    (h : ∀ v, e = Except.ok v → Q v) (hok : exOk e = true) :
    (match e with | Except.ok v => Q v | Except.error _ => False) := by
  cases e with
  | ok v => exact h v rfl
  | error a => simp [exOk] at hok

/-- Concrete state for the C4 witness: VC 0 of input 0 is `active` toward
output 0 while a slow-path request already occupies crossbar slot (0, 0). -/
def cexR4 : RouterState where
  buf := fun _ _ =>
    ⟨VCState.active, 9, [cexFlit1], fun o => if o = 0 then [(0, 3)] else [], 0, 0, 0⟩
  nextBuf := fun _ => freeBuf 1
  holdIn := fun _ => -1
  holdVC := fun _ => -1
  holdOut := fun _ => -1
  useFastPath := fun _ _ => true
  vcRROffset := fun _ _ => 0
  swRROffset := fun _ => 0

/-- A request matrix whose only occupied slot is (0, 0). -/
def cexM4 : ReqMatrix := fun a b => if a = 0 ∧ b = 0 then some ⟨0, 5, 0⟩ else none

/-- C4 (confirmed): when the fast path examines a crossbar slot that already
holds a request, it does not submit a request for that slot and leaves the
slot's content untouched; for a VC in `active` state whose assigned slot is
occupied, the whole search ends with no request at all (for `vc_alloc` the
scan continues with the other outputs, which is why requests at other slots
may still be issued). -/
theorem C4_fast_path_defers_to_slow :
    ∀ (P : Params) (r : RouterState) (input vc : Nat) (m m2 : ReqMatrix)
      (cs : List AddCall) (a b : Nat),
      (m a b).isSome = true →
      fastVC P r input vc m = Except.ok (m2, cs) →
      ((∀ cc ∈ cs, ¬(cc.ei = a ∧ cc.eo = b)) ∧ m2 a b = m a b) ∧
      ((r.buf input vc).state = VCState.active →
        (m (expIn P input vc) (expOut P ((r.buf input vc).outputPort) input)).isSome = true →
        m2 = m ∧ cs = []) := by
  intro P r input vc m m2 cs a b hs h
  refine ⟨fastVC_avoid h hs, ?_⟩
  intro hact hs2
  simp only [fastVC, if_pos hact] at h
  by_cases houts : P.outputs = 0
  · rw [if_pos houts] at h
    cases h
    exact ⟨rfl, rfl⟩
  · rw [if_neg houts] at h
    have hocc : fastOutBody P r input vc ((r.buf input vc).outputPort) m =
        Except.ok FastStep.occupied := by
      simp only [fastOutBody]
      rw [if_pos hs2]
    rw [hocc] at h
    cases h
    exact ⟨rfl, rfl⟩

/-- C4 (witness): in the `cexR4` state with slot (0, 0) occupied, the
`active` fast-path VC 0 ends its search with no request issued. -/
theorem C4_witness :
    (match fastVC cexP1 cexR4 0 0 cexM4 with
      | Except.ok out => out.2 = []
      | Except.error _ => False) :=
  exceptRun _ _
    (fun out hout =>
      ((C4_fast_path_defers_to_slow cexP1 cexR4 0 0 cexM4 out.1 out.2 0 0
          (by decide) hout).2 (by decide) (by decide)).2)
    rfl

theorem selectOutVC_spec (dest : BufferState) :
    ∀ (cands : List (Nat × Int)) (acc : Int × Int),
      (selectOutVC dest cands acc = acc ∧
        ∀ c ∈ cands, eligOutVC dest c → c.2 ≤ acc.2) ∨
      (∃ l1 v p l2, cands = l1 ++ (v, p) :: l2 ∧ eligOutVC dest (v, p) ∧
        selectOutVC dest cands acc = ((v : Int), p) ∧ acc.2 < p ∧
        (∀ c ∈ l1, eligOutVC dest c → c.2 < p) ∧
        (∀ c ∈ l2, eligOutVC dest c → c.2 ≤ p))
  | [], acc => by
    simp only [selectOutVC]
    exact Or.inl ⟨trivial, fun c hc => absurd hc (List.not_mem_nil c)⟩
  | c :: rest, acc => by
    simp only [selectOutVC]
    by_cases hav : dest.avail c.1 = false
    · rw [if_pos hav]
      have hne : ¬ eligOutVC dest c := fun he => by rw [he.1] at hav; cases hav
      rcases selectOutVC_spec dest rest acc with ⟨h1, h2⟩ |
          ⟨l1, v, p, l2, hc, he, hsel, hlt, hl1, hl2⟩
      · refine Or.inl ⟨h1, fun d hd hed => ?_⟩
        rcases List.mem_cons.mp hd with hdc | hdr
        · subst hdc; exact absurd hed hne
        · exact h2 d hdr hed
      · refine Or.inr ⟨c :: l1, v, p, l2, by rw [hc]; rfl, he, hsel, hlt, ?_, hl2⟩
        intro d hd hed
        rcases List.mem_cons.mp hd with hdc | hdr
        · subst hdc; exact absurd hed hne
        · exact hl1 d hdr hed
    · rw [if_neg hav]
      have hav2 : dest.avail c.1 = true := by
        cases hx : dest.avail c.1
        · exact absurd hx hav
        · rfl
      by_cases hfull : dest.isFullFor c.1 = true
      · rw [if_pos hfull]
        have hne : ¬ eligOutVC dest c := fun he => by rw [he.2] at hfull; cases hfull
        rcases selectOutVC_spec dest rest acc with ⟨h1, h2⟩ |
            ⟨l1, v, p, l2, hc, he, hsel, hlt, hl1, hl2⟩
        · refine Or.inl ⟨h1, fun d hd hed => ?_⟩
          rcases List.mem_cons.mp hd with hdc | hdr
          · subst hdc; exact absurd hed hne
          · exact h2 d hdr hed
        · refine Or.inr ⟨c :: l1, v, p, l2, by rw [hc]; rfl, he, hsel, hlt, ?_, hl2⟩
          intro d hd hed
          rcases List.mem_cons.mp hd with hdc | hdr
          · subst hdc; exact absurd hed hne
          · exact hl1 d hdr hed
      · rw [if_neg hfull]
        have heligc : eligOutVC dest c := ⟨hav2, by
          cases hx : dest.isFullFor c.1
          · rfl
          · exact absurd hx hfull⟩
        by_cases hrepl : acc.2 < c.2
        · rw [if_pos hrepl]
          rcases selectOutVC_spec dest rest ((c.1 : Int), c.2) with ⟨h1, h2⟩ |
              ⟨l1, v, p, l2, hc, he, hsel, hlt, hl1, hl2⟩
          · refine Or.inr ⟨[], c.1, c.2, rest, rfl, heligc, h1, hrepl,
              fun d hd => absurd hd (List.not_mem_nil d), fun d hd hed => h2 d hd hed⟩
          · refine Or.inr ⟨c :: l1, v, p, l2, by rw [hc]; rfl, he, hsel,
              Int.lt_trans hrepl hlt, ?_, hl2⟩
            intro d hd hed
            rcases List.mem_cons.mp hd with hdc | hdr
            · subst hdc; exact hlt
            · exact hl1 d hdr hed
        · rw [if_neg hrepl]
          have hle : c.2 ≤ acc.2 := Int.not_lt.mp hrepl
          rcases selectOutVC_spec dest rest acc with ⟨h1, h2⟩ |
              ⟨l1, v, p, l2, hc, he, hsel, hlt, hl1, hl2⟩
          · refine Or.inl ⟨h1, fun d hd hed => ?_⟩
            rcases List.mem_cons.mp hd with hdc | hdr
            · subst hdc; exact hle
            · exact h2 d hdr hed
          · refine Or.inr ⟨c :: l1, v, p, l2, by rw [hc]; rfl, he, hsel, hlt, ?_, hl2⟩
            intro d hd hed
            rcases List.mem_cons.mp hd with hdc | hdr
            · subst hdc; exact Int.lt_of_le_of_lt hle hlt
            · exact hl1 d hdr hed

theorem scanOutVCs_vcAlloc_some (dest : BufferState) (a : Nat) :
    ∀ (cands : List (Nat × Int)) (acc : Option Int) (p : Int),
      scanOutVCs VCState.vcAlloc a dest cands acc = some p →
      acc = some p ∨ ∃ c ∈ cands, eligOutVC dest c ∧ c.2 = p
  | [], acc, p => by
    simp only [scanOutVCs]
    intro h
    exact Or.inl h
  | c :: rest, acc, p => by
    simp only [scanOutVCs]
    intro h
    by_cases hav : dest.avail c.1 = false
    · rw [if_pos (show True ∧ dest.avail c.1 = false from ⟨trivial, hav⟩)] at h
      rcases scanOutVCs_vcAlloc_some dest a rest acc p h with h1 | ⟨d, hd, hed⟩
      · exact Or.inl h1
      · exact Or.inr ⟨d, List.mem_cons_of_mem c hd, hed⟩
    · rw [if_neg (fun hx => hav hx.2)] at h
      rw [if_neg (fun hx => VCState.noConfusion hx.1)] at h
      have hav2 : dest.avail c.1 = true := by
        cases hx : dest.avail c.1
        · exact absurd hx hav
        · rfl
      by_cases hfull : dest.isFullFor c.1 = true
      · rw [if_pos hfull] at h
        rcases scanOutVCs_vcAlloc_some dest a rest acc p h with h1 | ⟨d, hd, hed⟩
        · exact Or.inl h1
        · exact Or.inr ⟨d, List.mem_cons_of_mem c hd, hed⟩
      · rw [if_neg hfull] at h
        have heligc : eligOutVC dest c := ⟨hav2, by
          cases hx : dest.isFullFor c.1
          · rfl
          · exact absurd hx hfull⟩
        cases acc with
        | none =>
          simp only [] at h
          rcases scanOutVCs_vcAlloc_some dest a rest (some c.2) p h with h1 | ⟨d, hd, hed⟩
          · exact Or.inr ⟨c, List.mem_cons_self c rest, heligc, Option.some_inj.mp h1⟩
          · exact Or.inr ⟨d, List.mem_cons_of_mem c hd, hed⟩
        | some q =>
          simp only [] at h
          by_cases hq : q < c.2
          · rw [if_pos hq] at h
            rcases scanOutVCs_vcAlloc_some dest a rest (some c.2) p h with h1 | ⟨d, hd, hed⟩
            · exact Or.inr ⟨c, List.mem_cons_self c rest, heligc, Option.some_inj.mp h1⟩
            · exact Or.inr ⟨d, List.mem_cons_of_mem c hd, hed⟩
          · rw [if_neg hq] at h
            rcases scanOutVCs_vcAlloc_some dest a rest (some q) p h with h1 | ⟨d, hd, hed⟩
            · exact Or.inl h1
            · exact Or.inr ⟨d, List.mem_cons_of_mem c hd, hed⟩

/-- C3 (counterexample): the claim that the switch-hold binding is cleared
(on both sides, within the cycle) when the bound VC becomes empty is false on
the code: in the `cexR3` state the bound VC is empty, yet after the whole
`_Alloc` cycle the binding is still present on both sides — the match is only
canceled for the cycle (no transfer happens). -/
theorem C3_counterexample :
    cexR3.holdIn 0 = 0 ∧ cexR3.holdVC 0 = 0 ∧ cexR3.holdOut 0 = 0 ∧
    (cexR3.buf 0 0).flits = [] ∧
    allocHolds cexP3 (greedyAlloc cexP3) cexR3 0 0 = some (0, 0, 0) ∧
    allocTransfers cexP3 (greedyAlloc cexP3) cexR3 = some [] := by
  decide

/-- C6 (counterexample): the claim that the no-eligible-output-VC abort is
unreachable when the grant arose from a request built this cycle is false on
the code: in the `cexR6` state both expanded inputs build requests this cycle
(slots (0,0) and (1,1)) and both are granted, but resolving input 0 first
reserves the only candidate output VC (`TakeBuffer`), so input 1's
finalization re-scan finds nothing and `_Alloc` aborts at the line-530
assertion. -/
theorem C6_counterexample :
    builtSlot cexP6 cexR6 0 0 = some (some ⟨0, 5, 0⟩) ∧
    builtSlot cexP6 cexR6 1 1 = some (some ⟨0, 5, 0⟩) ∧
    builtGrant cexP6 (greedyAlloc cexP6) cexR6 0 = some 0 ∧
    builtGrant cexP6 (greedyAlloc cexP6) cexR6 1 = some 1 ∧
    allocAbort cexP6 (greedyAlloc cexP6) cexR6 = some Abort.noEligibleOutVC := by
  decide

/-- C6 (amended): the abort branch is unreachable provided the downstream
tracker state the finalization re-scan reads is the same one the
request-building scan read and the emitted priority exceeds `-1`: if the
request-building candidate scan succeeded (with priority above the `-1`
initialization of the resolution scan) against the same downstream state,
`vcAllocFinalize` cannot abort at the line-530 assertion.  (Same-cycle
`TakeBuffer` calls by earlier-resolved inputs break the proviso — see the
counterexample.) -/
theorem C6_finalize_cannot_abort_unchanged_dest :
    ∀ (P : Params) (st : ResolveSt) (input vcn output aOutVC : Nat) (p : Int),
      scanOutVCs VCState.vcAlloc aOutVC (st.r.nextBuf output)
        ((st.r.buf input vcn).routeSet output) none = some p →
      -1 < p →
      vcAllocFinalize P st input vcn output ≠ Except.error Abort.noEligibleOutVC := by
  intro P st input vcn output aOutVC p hscan hp
  rcases scanOutVCs_vcAlloc_some (st.r.nextBuf output) aOutVC
      ((st.r.buf input vcn).routeSet output) none p hscan with h1 | ⟨c, hc, helig, hcp⟩
  · cases h1
  · intro habs
    simp only [vcAllocFinalize] at habs
    split at habs
    · rename_i hsel
      rcases selectOutVC_spec (st.r.nextBuf output)
          ((st.r.buf input vcn).routeSet output) (-1, -1) with ⟨_, hall⟩ |
          ⟨l1, v, q, l2, _, _, hseleq, _, _, _⟩
      · have := hall c hc helig
        rw [hcp] at this
        omega
      · rw [hseleq] at hsel
        simp at hsel
        omega
    · cases habs

/-- C6 (witness): in the `stW6` state (downstream tracker untouched since
request building) the finalization of input 0 at output 0 does not hit the
abort. -/
theorem C6_witness :
    vcAllocFinalize cexP6 stW6 0 0 0 ≠ Except.error Abort.noEligibleOutVC :=
  C6_finalize_cannot_abort_unchanged_dest cexP6 stW6 0 0 0 0 5 (by decide) (by decide)

/-- C7 (confirmed): when VC-allocation finalization completes for a granted
`vc_alloc` winner, the chosen output VC is an available, non-full route-set
candidate at the granted output whose priority is strictly above every
earlier eligible candidate and at least that of every later one (highest
priority, ties to the first seen); the VC transitions to `active`, is bound
to `(output, chosen VC)`, the chosen VC is reserved downstream, and the VC's
round-robin output offset becomes `(output + 1) % outputs`. -/
theorem C7_vc_alloc_finalization :
    ∀ (P : Params) (st st2 : ResolveSt) (input vcn output : Nat),
      vcAllocFinalize P st input vcn output = Except.ok st2 →
      ∃ sv p l1 l2,
        (st.r.buf input vcn).routeSet output = l1 ++ (sv, p) :: l2 ∧
        eligOutVC (st.r.nextBuf output) (sv, p) ∧
        (∀ c ∈ l1, eligOutVC (st.r.nextBuf output) c → c.2 < p) ∧
        (∀ c ∈ l2, eligOutVC (st.r.nextBuf output) c → c.2 ≤ p) ∧
        (st2.r.buf input vcn).state = VCState.active ∧
        (st2.r.buf input vcn).outputPort = output ∧
        (st2.r.buf input vcn).outputVC = sv ∧
        (st2.r.nextBuf output).avail sv = false ∧
        st2.r.vcRROffset input vcn = (output + 1) % P.outputs := by
  intro P st st2 input vcn output h
  simp only [vcAllocFinalize] at h
  split at h
  · simp at h
  · rename_i hsel
    rcases selectOutVC_spec (st.r.nextBuf output)
        ((st.r.buf input vcn).routeSet output) (-1, -1) with ⟨heq, _⟩ |
        ⟨l1, v, p, l2, hsplit, helig, hseleq, _, hl1, hl2⟩
    · rw [heq] at hsel
      simp at hsel
    · rw [hseleq] at hsel h
      simp only [Except.ok.injEq] at h
      subst h
      refine ⟨v, p, l1, l2, hsplit, helig, hl1, hl2, ?_, ?_, ?_, ?_, ?_⟩
      · simp [RouterState.setVC, RouterState.setNext]
      · simp [RouterState.setVC, RouterState.setNext]
      · simp [RouterState.setVC, RouterState.setNext, Int.toNat_ofNat]
      · simp [RouterState.setVC, RouterState.setNext, updNat, Int.toNat_ofNat]
      · simp [RouterState.setVC, RouterState.setNext, upd2]

/-- C7 (witness): the finalization theorem applied to input 0 of the `stW6`
state: the single candidate (output VC 0, priority 5) is chosen and the VC
goes active. -/
theorem C7_witness :
    (match vcAllocFinalize cexP6 stW6 0 0 0 with
      | Except.ok st2 => (st2.r.buf 0 0).state = VCState.active ∧
          (st2.r.buf 0 0).outputPort = 0 ∧ st2.r.vcRROffset 0 0 = 0
      | Except.error _ => False) :=
  exceptRun (vcAllocFinalize cexP6 stW6 0 0 0)
    (fun st2 => (st2.r.buf 0 0).state = VCState.active ∧
      (st2.r.buf 0 0).outputPort = 0 ∧ st2.r.vcRROffset 0 0 = 0)
    (fun v hv => by
      obtain ⟨sv, p, l1, l2, _, _, _, _, h5, h6, _, _, h9⟩ :=
        C7_vc_alloc_finalization cexP6 stW6 v 0 0 0 hv
      exact ⟨h5, h6, h9⟩)
    (by rfl)

@[simp]
theorem setVC_buf_same (r : RouterState) (i v : Nat) (g : VCRec → VCRec) :
    (r.setVC i v g).buf i v = g (r.buf i v) := by
  simp [RouterState.setVC]

theorem setVC_buf_other (r : RouterState) (i v a b : Nat) (g : VCRec → VCRec)
    (h : ¬(a = i ∧ b = v)) : (r.setVC i v g).buf a b = r.buf a b := by
  simp [RouterState.setVC, h]

@[simp]
theorem setVC_nextBuf (r : RouterState) (i v : Nat) (g : VCRec → VCRec) :
    (r.setVC i v g).nextBuf = r.nextBuf := rfl

@[simp]
theorem setVC_holdIn (r : RouterState) (i v : Nat) (g : VCRec → VCRec) :
    (r.setVC i v g).holdIn = r.holdIn := rfl

@[simp]
theorem setVC_holdVC (r : RouterState) (i v : Nat) (g : VCRec → VCRec) :
    (r.setVC i v g).holdVC = r.holdVC := rfl

@[simp]
theorem setVC_holdOut (r : RouterState) (i v : Nat) (g : VCRec → VCRec) :
    (r.setVC i v g).holdOut = r.holdOut := rfl

@[simp]
theorem setVC_useFastPath (r : RouterState) (i v : Nat) (g : VCRec → VCRec) :
    (r.setVC i v g).useFastPath = r.useFastPath := rfl

@[simp]
theorem setVC_vcRROffset (r : RouterState) (i v : Nat) (g : VCRec → VCRec) :
    (r.setVC i v g).vcRROffset = r.vcRROffset := rfl

@[simp]
theorem setVC_swRROffset (r : RouterState) (i v : Nat) (g : VCRec → VCRec) :
    (r.setVC i v g).swRROffset = r.swRROffset := rfl

@[simp]
theorem setNext_buf (r : RouterState) (o : Nat) (g : BufferState → BufferState) :
    (r.setNext o g).buf = r.buf := rfl

@[simp]
theorem setNext_nextBuf_same (r : RouterState) (o : Nat) (g : BufferState → BufferState) :
    (r.setNext o g).nextBuf o = g (r.nextBuf o) := by
  simp [RouterState.setNext]

@[simp]
theorem setNext_holdIn (r : RouterState) (o : Nat) (g : BufferState → BufferState) :
    (r.setNext o g).holdIn = r.holdIn := rfl

@[simp]
theorem setNext_holdVC (r : RouterState) (o : Nat) (g : BufferState → BufferState) :
    (r.setNext o g).holdVC = r.holdVC := rfl

@[simp]
theorem setNext_holdOut (r : RouterState) (o : Nat) (g : BufferState → BufferState) :
    (r.setNext o g).holdOut = r.holdOut := rfl

@[simp]
theorem setNext_useFastPath (r : RouterState) (o : Nat) (g : BufferState → BufferState) :
    (r.setNext o g).useFastPath = r.useFastPath := rfl

@[simp]
theorem setNext_vcRROffset (r : RouterState) (o : Nat) (g : BufferState → BufferState) :
    (r.setNext o g).vcRROffset = r.vcRROffset := rfl

@[simp]
theorem setNext_swRROffset (r : RouterState) (o : Nat) (g : BufferState → BufferState) :
    (r.setNext o g).swRROffset = r.swRROffset := rfl

theorem activeTransfer_spec :
    ∀ (P : Params) (st st2 : ResolveSt) (c c2 : Option Credit) (input s vcn eo : Nat),
      activeTransfer P st c input s vcn eo = Except.ok (st2, c2) →
      ∃ f0 rest,
        (st.r.buf input vcn).flits = f0 :: rest ∧
        vcn = f0.vc ∧
        (st.r.buf input vcn).outputPort = eo / P.outputSpeedup ∧
        st2.transfers = st.transfers ++
          [⟨input, s, vcn, eo, f0,
            { f0 with hops := f0.hops + 1, vc := (st.r.buf input vcn).outputVC }⟩] ∧
        c2 = some ⟨(match c with | none => [] | some cr => cr.vcList) ++ [vcn],
          f0.fromRouter⟩ ∧
        st2.xbar eo =
          some { f0 with hops := f0.hops + 1, vc := (st.r.buf input vcn).outputVC } ∧
        (st2.r.nextBuf (eo / P.outputSpeedup)).occ ((st.r.buf input vcn).outputVC) =
          (st.r.nextBuf (eo / P.outputSpeedup)).occ ((st.r.buf input vcn).outputVC) + 1 ∧
        st2.creditLog = st.creditLog ∧
        (f0.tail = true →
          st2.r.holdIn (input * P.inputSpeedup + s) = -1 ∧
          st2.r.holdVC (input * P.inputSpeedup + s) = -1 ∧
          st2.r.holdOut eo = -1) ∧
        (f0.tail = false → P.holdSwitchForPacket = true →
          st2.r.holdIn (input * P.inputSpeedup + s) = (eo : Int) ∧
          st2.r.holdVC (input * P.inputSpeedup + s) = (vcn : Int) ∧
          st2.r.holdOut eo = ((input * P.inputSpeedup + s : Nat) : Int)) ∧
        (f0.tail = false → P.holdSwitchForPacket = false →
          st2.r.holdIn (input * P.inputSpeedup + s) = st.r.holdIn (input * P.inputSpeedup + s) ∧
          st2.r.holdVC (input * P.inputSpeedup + s) = st.r.holdVC (input * P.inputSpeedup + s) ∧
          st2.r.holdOut eo = st.r.holdOut eo) := by
  intro P st st2 c c2 input s vcn eo h
  simp only [activeTransfer] at h
  by_cases hhold : P.holdSwitchForPacket = true
  case pos =>
    rw [if_pos hhold] at h
    simp only [] at h
    cases hfl : (st.r.buf input vcn).flits with
    | nil => rw [hfl] at h; simp at h
    | cons f0 rest =>
      rw [hfl] at h
      simp only [] at h
      by_cases hport : (st.r.buf input vcn).outputPort ≠ eo / P.outputSpeedup
      · rw [if_pos hport] at h; simp at h
      · rw [if_neg hport] at h
        by_cases hfull : (st.r.nextBuf (eo / P.outputSpeedup)).isFullFor
            ((st.r.buf input vcn).outputVC) = true
        · rw [if_pos hfull] at h; simp at h
        · rw [if_neg hfull] at h
          by_cases hvc : vcn ≠ f0.vc
          · rw [if_pos hvc] at h; simp at h
          · rw [if_neg hvc] at h
            simp only [Except.ok.injEq, Prod.mk.injEq] at h
            obtain ⟨hst2, hc2⟩ := h
            subst hst2
            subst hc2
            refine ⟨f0, rest, rfl, not_ne_iff.mp hvc, not_ne_iff.mp hport,
              ?_, ?_, ?_, ?_, ?_, ?_, ?_, ?_⟩
            · simp [apply_ite ResolveSt.transfers, apply_ite ResolveSt.r]
            · cases c <;> rfl
            · simp [apply_ite ResolveSt.xbar, apply_ite ResolveSt.r]
            · simp [apply_ite ResolveSt.r, apply_ite RouterState.nextBuf, ite_apply,
                apply_ite BufferState.occ]
            · simp [apply_ite ResolveSt.creditLog, apply_ite ResolveSt.r]
            · intro ht
              simp [apply_ite ResolveSt.r, apply_ite RouterState.holdIn,
                apply_ite RouterState.holdVC, apply_ite RouterState.holdOut,
                ite_apply, ht, updNat]
            · intro ht _
              simp [apply_ite ResolveSt.r, apply_ite RouterState.holdIn,
                apply_ite RouterState.holdVC, apply_ite RouterState.holdOut,
                ite_apply, ht, updNat]
            · intro _ hp
              rw [hp] at hhold
              cases hhold
  case neg =>
    rw [if_neg hhold] at h
    cases hfl : (st.r.buf input vcn).flits with
    | nil => rw [hfl] at h; simp at h
    | cons f0 rest =>
      rw [hfl] at h
      simp only [] at h
      by_cases hport : (st.r.buf input vcn).outputPort ≠ eo / P.outputSpeedup
      · rw [if_pos hport] at h; simp at h
      · rw [if_neg hport] at h
        by_cases hfull : (st.r.nextBuf (eo / P.outputSpeedup)).isFullFor
            ((st.r.buf input vcn).outputVC) = true
        · rw [if_pos hfull] at h; simp at h
        · rw [if_neg hfull] at h
          by_cases hvc : vcn ≠ f0.vc
          · rw [if_pos hvc] at h; simp at h
          · rw [if_neg hvc] at h
            simp only [Except.ok.injEq, Prod.mk.injEq] at h
            obtain ⟨hst2, hc2⟩ := h
            subst hst2
            subst hc2
            refine ⟨f0, rest, rfl, not_ne_iff.mp hvc, not_ne_iff.mp hport,
              ?_, ?_, ?_, ?_, ?_, ?_, ?_, ?_⟩
            · simp [apply_ite ResolveSt.transfers, apply_ite ResolveSt.r]
            · cases c <;> rfl
            · simp [apply_ite ResolveSt.xbar, apply_ite ResolveSt.r]
            · simp [apply_ite ResolveSt.r, apply_ite RouterState.nextBuf, ite_apply,
                apply_ite BufferState.occ]
            · simp [apply_ite ResolveSt.creditLog, apply_ite ResolveSt.r]
            · intro ht
              simp [apply_ite ResolveSt.r, apply_ite RouterState.holdIn,
                apply_ite RouterState.holdVC, apply_ite RouterState.holdOut,
                ite_apply, ht, updNat]
            · intro ht hp
              rw [hp] at hhold
              cases hhold rfl
            · intro ht _
              simp [apply_ite ResolveSt.r, apply_ite RouterState.holdIn,
                apply_ite RouterState.holdVC, apply_ite RouterState.holdOut,
                ite_apply, ht, updNat]

theorem fastBK_frame {st st1 : ResolveSt} {input : Nat} {fvc : Int} {vcn : Nat}
    (h : fastBK st input fvc vcn = Except.ok st1) :
    st1.transfers = st.transfers ∧ st1.creditLog = st.creditLog ∧
    st1.xbar = st.xbar ∧ st1.queuing = st.queuing ∧
    st1.r.buf = st.r.buf ∧ st1.r.nextBuf = st.r.nextBuf ∧
    st1.r.holdIn = st.r.holdIn ∧ st1.r.holdVC = st.r.holdVC ∧
    st1.r.holdOut = st.r.holdOut ∧ st1.r.vcRROffset = st.r.vcRROffset ∧
    st1.r.swRROffset = st.r.swRROffset := by
  simp only [fastBK] at h
  split at h
  · cases h
    exact ⟨rfl, rfl, rfl, rfl, rfl, rfl, rfl, rfl, rfl, rfl, rfl⟩
  · split at h
    · split at h
      · simp at h
      · split at h
        · simp at h
        · cases h
          exact ⟨rfl, rfl, rfl, rfl, rfl, rfl, rfl, rfl, rfl, rfl, rfl⟩
    · cases h
      exact ⟨rfl, rfl, rfl, rfl, rfl, rfl, rfl, rfl, rfl, rfl, rfl⟩

theorem vcAllocFinalize_frame {P : Params} {st st2 : ResolveSt}
    {input vcn output : Nat}
    (h : vcAllocFinalize P st input vcn output = Except.ok st2) :
    st2.transfers = st.transfers ∧ st2.creditLog = st.creditLog ∧
    st2.xbar = st.xbar ∧ st2.queuing = st.queuing ∧
    st2.r.holdIn = st.r.holdIn ∧ st2.r.holdVC = st.r.holdVC ∧
    st2.r.holdOut = st.r.holdOut ∧ st2.r.useFastPath = st.r.useFastPath ∧
    (st2.r.buf input vcn).flits = (st.r.buf input vcn).flits := by
  simp only [vcAllocFinalize] at h
  split at h
  · simp at h
  · cases h
    refine ⟨rfl, rfl, rfl, rfl, rfl, rfl, rfl, rfl, ?_⟩
    simp [RouterState.setVC, RouterState.setNext]

theorem resolveGrant_step {P : Params} {fvc : Int} {input s vcn eo : Nat}
    {st : ResolveSt} {c : Option Credit} {st2 : ResolveSt} {c2 : Option Credit}
    (h : resolveGrant P fvc input s vcn eo st c = Except.ok (st2, c2)) :
    st2.creditLog = st.creditLog ∧
    ((st2.transfers = st.transfers ∧ c2 = c) ∨
     (∃ t, st2.transfers = st.transfers ++ [t] ∧ t.input = input ∧ t.s = s ∧
       t.vcn = vcn ∧ t.eo = eo ∧
       c2 = some ⟨(match c with | none => [] | some cr => cr.vcList) ++ [t.vcn],
         t.fPost.fromRouter⟩)) := by
  simp only [resolveGrant] at h
  split at h
  · simp at h
  · cases heq1 : fastBK st input fvc vcn with
    | error a => rw [heq1] at h; simp at h
    | ok st1 =>
      rw [heq1] at h
      simp only [] at h
      obtain ⟨hf1, hf2, _, _, hfb, _, _, _, _, _, _⟩ := fastBK_frame heq1
      by_cases hstate : (st1.r.buf input vcn).state = VCState.vcAlloc
      · rw [if_pos hstate] at h
        cases heq2 : vcAllocFinalize P st1 input vcn (eo / P.outputSpeedup) with
        | error a => rw [heq2] at h; simp at h
        | ok stm =>
          rw [heq2] at h
          simp only [] at h
          obtain ⟨hg1, hg2, _, _, _, _, _, _, _⟩ := vcAllocFinalize_frame heq2
          by_cases hact : (stm.r.buf input vcn).state = VCState.active
          · rw [if_pos hact] at h
            obtain ⟨f0, rest, _, _, _, ht, hc2, _, _, hcl, _, _, _⟩ :=
              activeTransfer_spec P stm st2 c c2 input s vcn eo h
            refine ⟨by rw [hcl, hg2, hf2], Or.inr ⟨⟨input, s, vcn, eo, f0,
              { f0 with hops := f0.hops + 1, vc := (stm.r.buf input vcn).outputVC }⟩,
              by rw [ht, hg1, hf1], rfl, rfl, rfl, rfl, hc2⟩⟩
          · rw [if_neg hact] at h
            simp only [Except.ok.injEq, Prod.mk.injEq] at h
            obtain ⟨h1, h2⟩ := h
            subst h1; subst h2
            exact ⟨by rw [hg2, hf2], Or.inl ⟨by rw [hg1, hf1], rfl⟩⟩
      · rw [if_neg hstate] at h
        simp only [] at h
        by_cases hact : (st1.r.buf input vcn).state = VCState.active
        · rw [if_pos hact] at h
          obtain ⟨f0, rest, _, _, _, ht, hc2, _, _, hcl, _, _, _⟩ :=
            activeTransfer_spec P st1 st2 c c2 input s vcn eo h
          refine ⟨by rw [hcl, hf2], Or.inr ⟨⟨input, s, vcn, eo, f0,
            { f0 with hops := f0.hops + 1, vc := (st1.r.buf input vcn).outputVC }⟩,
            by rw [ht, hf1], rfl, rfl, rfl, rfl, hc2⟩⟩
        · rw [if_neg hact] at h
          simp only [Except.ok.injEq, Prod.mk.injEq] at h
          obtain ⟨h1, h2⟩ := h
          subst h1; subst h2
          exact ⟨by rw [hf2], Or.inl ⟨by rw [hf1], rfl⟩⟩

theorem resolveSlot_step {P : Params} {m : ReqMatrix} {gout : Nat → Int}
    {fvc : Int} {input s : Nat} {st : ResolveSt} {c : Option Credit}
    {st2 : ResolveSt} {c2 : Option Credit}
    (h : resolveSlot P m gout fvc input s st c = Except.ok (st2, c2)) :
    st2.creditLog = st.creditLog ∧
    ((st2.transfers = st.transfers ∧ c2 = c) ∨
     (∃ t, st2.transfers = st.transfers ++ [t] ∧ t.input = input ∧ t.s = s ∧
       c2 = some ⟨(match c with | none => [] | some cr => cr.vcList) ++ [t.vcn],
         t.fPost.fromRouter⟩)) := by
  simp only [resolveSlot] at h
  split at h
  · simp at h
  · rename_i eoI vcn heq
    by_cases hge : (0 : Int) ≤ eoI
    · rw [if_pos hge] at h
      obtain ⟨hcl, hstep⟩ := resolveGrant_step h
      refine ⟨hcl, ?_⟩
      rcases hstep with ⟨h1, h2⟩ | ⟨t, h1, h2, h3, _, _, h6⟩
      · exact Or.inl ⟨h1, h2⟩
      · exact Or.inr ⟨t, h1, h2, h3, h6⟩
    · rw [if_neg hge] at h
      split at h
      · split at h
        · simp at h
        · split at h
          · simp at h
          · simp only [Except.ok.injEq, Prod.mk.injEq] at h
            obtain ⟨h1, h2⟩ := h
            subst h1; subst h2
            exact ⟨rfl, Or.inl ⟨rfl, rfl⟩⟩
      · simp only [Except.ok.injEq, Prod.mk.injEq] at h
        obtain ⟨h1, h2⟩ := h
        subst h1; subst h2
        exact ⟨rfl, Or.inl ⟨rfl, rfl⟩⟩

theorem creditOf_vcList (ts : List Transfer) :
    (match creditOf ts with | none => ([] : List Nat) | some cr => cr.vcList) =
      ts.map (fun t => t.vcn) := by
  simp only [creditOf]
  cases hl : ts.getLast? with
  | none =>
    have : ts = [] := List.getLast?_eq_none_iff.mp hl
    subst this
    rfl
  | some tl => rfl

theorem creditOf_snoc (ts : List Transfer) (t : Transfer) :
    creditOf (ts ++ [t]) =
      some ⟨ts.map (fun u => u.vcn) ++ [t.vcn], t.fPost.fromRouter⟩ := by
  simp [creditOf, List.getLast?_concat]

theorem slotLoop_credit {P : Params} {m : ReqMatrix} {gout : Nat → Int}
    {fvc : Int} {input : Nat} :
    ∀ (count s : Nat) (st : ResolveSt) (ts0 : List Transfer) (st2 : ResolveSt)
      (c2 : Option Credit),
      slotLoop P m gout fvc input count s st (creditOf ts0) = Except.ok (st2, c2) →
      ∃ ts, st2.transfers = st.transfers ++ ts ∧ (∀ t ∈ ts, t.input = input) ∧
        c2 = creditOf (ts0 ++ ts) ∧ st2.creditLog = st.creditLog
  | 0, _, st, ts0, st2, c2, h => by
    simp only [slotLoop] at h
    simp only [Except.ok.injEq, Prod.mk.injEq] at h
    obtain ⟨h1, h2⟩ := h
    subst h1; subst h2
    exact ⟨[], by simp, fun t ht => absurd ht (List.not_mem_nil t), by simp, rfl⟩
  | count + 1, s, st, ts0, st2, c2, h => by
    simp only [slotLoop] at h
    cases hstep : resolveSlot P m gout fvc input s st (creditOf ts0) with
    | error a => rw [hstep] at h; simp at h
    | ok p =>
      rw [hstep] at h
      obtain ⟨mst, mc⟩ := p
      simp only [] at h
      obtain ⟨hcl, hrel⟩ := resolveSlot_step hstep
      rcases hrel with ⟨h1, h2⟩ | ⟨t, h1, h2, _, h4⟩
      · subst h2
        obtain ⟨ts, g1, g2, g3, g4⟩ := slotLoop_credit count (s + 1) mst ts0 st2 c2 h
        exact ⟨ts, by rw [g1, h1], g2, g3, by rw [g4, hcl]⟩
      · have hmc : mc = creditOf (ts0 ++ [t]) := by
          rw [creditOf_snoc, h4, creditOf_vcList]
        rw [hmc] at h
        obtain ⟨ts, g1, g2, g3, g4⟩ := slotLoop_credit count (s + 1) mst (ts0 ++ [t]) st2 c2 h
        refine ⟨t :: ts, ?_, ?_, ?_, by rw [g4, hcl]⟩
        · rw [g1, h1]
          simp
        · intro u hu
          rcases List.mem_cons.mp hu with h5 | h5
          · subst h5; exact h2
          · exact g2 u h5
        · rw [g3]
          simp

/-- C3 (amended): a standing switch-hold binding pre-empts the allocator:
while the bound VC is non-empty (and `active`), grant resolution transfers
from exactly the held (expanded output, VC) pair; the binding is cleared on
both sides in the cycle whose transferred flit is the tail, is re-recorded
unchanged for a non-tail transfer when packet-holding is on, and is left
untouched otherwise.  When the bound VC is empty the held match is only
canceled for this cycle: no transfer happens and the binding persists (it is
not cleared, contrary to the original claim — see the counterexample). -/
theorem C3_hold_retry_and_release :
    ∀ (P : Params) (m : ReqMatrix) (gout : Nat → Int) (fvc : Int)
      (input s eoN vcn : Nat) (st st2 : ResolveSt) (c c2 : Option Credit),
      st.r.holdIn (input * P.inputSpeedup + s) = (eoN : Int) →
      st.r.holdVC (input * P.inputSpeedup + s) = (vcn : Int) →
      resolveSlot P m gout fvc input s st c = Except.ok (st2, c2) →
      ((st.r.buf input vcn).flits = [] →
        st2.r.holdIn (input * P.inputSpeedup + s) = (eoN : Int) ∧
        st2.r.holdVC (input * P.inputSpeedup + s) = (vcn : Int) ∧
        st2.r.holdOut = st.r.holdOut ∧
        st2.transfers = st.transfers) ∧
      ((st.r.buf input vcn).flits ≠ [] → (st.r.buf input vcn).state = VCState.active →
        ∃ f0 rest, (st.r.buf input vcn).flits = f0 :: rest ∧
          st2.transfers = st.transfers ++
            [⟨input, s, vcn, eoN, f0,
              { f0 with hops := f0.hops + 1, vc := (st.r.buf input vcn).outputVC }⟩] ∧
          (f0.tail = true →
            st2.r.holdIn (input * P.inputSpeedup + s) = -1 ∧
            st2.r.holdVC (input * P.inputSpeedup + s) = -1 ∧
            st2.r.holdOut eoN = -1) ∧
          (f0.tail = false → P.holdSwitchForPacket = true →
            st2.r.holdIn (input * P.inputSpeedup + s) = (eoN : Int) ∧
            st2.r.holdVC (input * P.inputSpeedup + s) = (vcn : Int) ∧
            st2.r.holdOut eoN = ((input * P.inputSpeedup + s : Nat) : Int)) ∧
          (f0.tail = false → P.holdSwitchForPacket = false →
            st2.r.holdIn (input * P.inputSpeedup + s) = (eoN : Int) ∧
            st2.r.holdVC (input * P.inputSpeedup + s) = (vcn : Int) ∧
            st2.r.holdOut eoN = st.r.holdOut eoN)) := by
  intro P m gout fvc input s eoN vcn st st2 c c2 hIn hVC hres
  simp only [resolveSlot] at hres
  rw [hIn, hVC] at hres
  rw [if_pos (show (eoN : Int) ≠ -1 by omega)] at hres
  rw [if_neg (show ¬((eoN : Int) < 0) by omega)] at hres
  rw [if_neg (show ¬((vcn : Int) < 0) by omega)] at hres
  simp only [Int.toNat_ofNat] at hres
  by_cases hempty : (st.r.buf input vcn).flits = []
  · rw [if_pos hempty] at hres
    simp only [] at hres
    rw [if_neg (show ¬((0 : Int) ≤ -1) by omega)] at hres
    constructor
    · intro _
      split at hres
      · split at hres
        · simp at hres
        · split at hres
          · simp at hres
          · simp only [Except.ok.injEq, Prod.mk.injEq] at hres
            obtain ⟨h1, _⟩ := hres
            subst h1
            exact ⟨hIn, hVC, rfl, rfl⟩
      · simp only [Except.ok.injEq, Prod.mk.injEq] at hres
        obtain ⟨h1, _⟩ := hres
        subst h1
        exact ⟨hIn, hVC, rfl, rfl⟩
    · intro hne _
      exact absurd hempty hne
  · rw [if_neg hempty] at hres
    simp only [] at hres
    rw [if_pos (show (0 : Int) ≤ (eoN : Int) by omega)] at hres
    simp only [Int.toNat_ofNat] at hres
    constructor
    · intro h1
      exact absurd h1 hempty
    · intro _ hact
      simp only [resolveGrant] at hres
      rw [if_neg hempty] at hres
      cases heq1 : fastBK st input fvc vcn with
      | error a => rw [heq1] at hres; simp at hres
      | ok st1 =>
        rw [heq1] at hres
        simp only [] at hres
        obtain ⟨hf1, _, _, _, hfb, _, hfhi, hfhv, hfho, _, _⟩ := fastBK_frame heq1
        rw [if_neg (show ¬((st1.r.buf input vcn).state = VCState.vcAlloc) by
          rw [hfb, hact]; intro hx; cases hx)] at hres
        simp only [] at hres
        rw [if_pos (show (st1.r.buf input vcn).state = VCState.active by
          rw [hfb, hact])] at hres
        obtain ⟨f0, rest, g1, g2, g3, g4, g5, g6, g7, g8, g9, g10, g11⟩ :=
          activeTransfer_spec P st1 st2 c c2 input s vcn eoN hres
        rw [hfb] at g1
        refine ⟨f0, rest, g1, ?_, g9, ?_, ?_⟩
        · rw [g4, hf1, hfb]
        · intro ht hp
          obtain ⟨k1, k2, k3⟩ := g10 ht hp
          exact ⟨k1, k2, k3⟩
        · intro ht hp
          obtain ⟨k1, k2, k3⟩ := g11 ht hp
          rw [hfhi] at k1
          rw [hfhv] at k2
          rw [hfho] at k3
          rw [hIn] at k1
          rw [hVC] at k2
          exact ⟨k1, k2, k3⟩

theorem creditOf_eq_none_iff (ts : List Transfer) : creditOf ts = none ↔ ts = [] := by
  simp only [creditOf]
  cases hl : ts.getLast? with
  | none => simp [List.getLast?_eq_none_iff.mp hl]
  | some tl =>
    simp only []
    constructor
    · intro h; cases h
    · intro h
      subst h
      cases hl

theorem creditOf_some (ts : List Transfer) (cr : Credit) (h : creditOf ts = some cr) :
    cr.vcList = ts.map (fun t => t.vcn) ∧
    ∃ tl, ts.getLast? = some tl ∧ cr.destRouter = tl.fPost.fromRouter := by
  simp only [creditOf] at h
  cases hl : ts.getLast? with
  | none => rw [hl] at h; cases h
  | some tl =>
    rw [hl] at h
    simp only [Option.some.injEq] at h
    subst h
    exact ⟨rfl, tl, rfl, rfl⟩

/-- C8 (confirmed): grant resolution for one input appends exactly one write
to the credit pipeline, `(input, creditOf ts)` where `ts` are exactly the
transfers this input performed this cycle: `none` when nothing transferred,
otherwise one entry per transferred flit naming its input-side VC (in order)
together with the originating router of a (the last) transferred flit. -/
theorem C8_one_credit_write_per_input :
    ∀ (P : Params) (m : ReqMatrix) (gout : Nat → Int) (fpv : Nat → Int)
      (input : Nat) (st st2 : ResolveSt),
      resolveInput P m gout fpv input st = Except.ok st2 →
      ∃ ts, st2.transfers = st.transfers ++ ts ∧ (∀ t ∈ ts, t.input = input) ∧
        st2.creditLog = st.creditLog ++ [(input, creditOf ts)] ∧
        (creditOf ts = none ↔ ts = []) ∧
        (∀ cr, creditOf ts = some cr → cr.vcList = ts.map (fun t => t.vcn) ∧
          ∃ tl, ts.getLast? = some tl ∧ cr.destRouter = tl.fPost.fromRouter) := by
  intro P m gout fpv input st st2 h
  simp only [resolveInput] at h
  cases hloop : slotLoop P m gout (fpv input) input P.inputSpeedup 0 st none with
  | error a => rw [hloop] at h; simp at h
  | ok p =>
    rw [hloop] at h
    obtain ⟨stm, cm⟩ := p
    simp only [Except.ok.injEq] at h
    subst h
    obtain ⟨ts, g1, g2, g3, g4⟩ :=
      slotLoop_credit P.inputSpeedup 0 st [] stm cm hloop
    refine ⟨ts, g1, g2, ?_, creditOf_eq_none_iff ts, fun cr hcr => creditOf_some ts cr hcr⟩
    show stm.creditLog ++ [(input, cm)] = st.creditLog ++ [(input, creditOf ts)]
    rw [g4, g3]
    simp

theorem resolveGrant_transfer {P : Params} {fvc : Int} {input s vcn eo : Nat}
    {st : ResolveSt} {c : Option Credit} {st2 : ResolveSt} {c2 : Option Credit}
    {t : Transfer}
    (h : resolveGrant P fvc input s vcn eo st c = Except.ok (st2, c2))
    (ht : st2.transfers = st.transfers ++ [t])
    (hact : (st.r.buf t.input t.vcn).state = VCState.active) :
    t.eo / P.outputSpeedup = (st.r.buf t.input t.vcn).outputPort ∧
    t.fPost.vc = (st.r.buf t.input t.vcn).outputVC := by
  simp only [resolveGrant] at h
  split at h
  · simp at h
  · cases heq1 : fastBK st input fvc vcn with
    | error a => rw [heq1] at h; simp at h
    | ok st1 =>
      rw [heq1] at h
      simp only [] at h
      obtain ⟨hf1, _, _, _, hfb, _, _, _, _, _, _⟩ := fastBK_frame heq1
      by_cases hstate : (st1.r.buf input vcn).state = VCState.vcAlloc
      · rw [if_pos hstate] at h
        cases heq2 : vcAllocFinalize P st1 input vcn (eo / P.outputSpeedup) with
        | error a => rw [heq2] at h; simp at h
        | ok stm =>
          rw [heq2] at h
          simp only [] at h
          obtain ⟨hg1, _, _, _, _, _, _, _, _⟩ := vcAllocFinalize_frame heq2
          by_cases hact2 : (stm.r.buf input vcn).state = VCState.active
          · rw [if_pos hact2] at h
            obtain ⟨f0, rest, _, _, _, htr, _, _, _, _, _, _, _⟩ :=
              activeTransfer_spec P stm st2 c c2 input s vcn eo h
            rw [htr, hg1, hf1] at ht
            have heqt : t = ⟨input, s, vcn, eo, f0,
                { f0 with hops := f0.hops + 1, vc := (stm.r.buf input vcn).outputVC }⟩ := by
              have := List.append_cancel_left (ht.symm.trans rfl)
              simp only [List.cons.injEq] at this
              exact this.1
            subst heqt
            simp only [] at hact
            rw [hfb] at hstate
            rw [hact] at hstate
            cases hstate
          · rw [if_neg hact2] at h
            simp only [Except.ok.injEq, Prod.mk.injEq] at h
            obtain ⟨h1, _⟩ := h
            subst h1
            rw [hg1, hf1] at ht
            simp at ht
      · rw [if_neg hstate] at h
        simp only [] at h
        by_cases hact2 : (st1.r.buf input vcn).state = VCState.active
        · rw [if_pos hact2] at h
          obtain ⟨f0, rest, _, _, hport, htr, _, _, _, _, _, _, _⟩ :=
            activeTransfer_spec P st1 st2 c c2 input s vcn eo h
          rw [htr, hf1] at ht
          have heqt : t = ⟨input, s, vcn, eo, f0,
              { f0 with hops := f0.hops + 1, vc := (st1.r.buf input vcn).outputVC }⟩ := by
            have := List.append_cancel_left (ht.symm.trans rfl)
            simp only [List.cons.injEq] at this
            exact this.1
          subst heqt
          simp only []
          rw [hfb] at hport
          exact ⟨(by rw [hport]), by rw [hfb]⟩
        · rw [if_neg hact2] at h
          simp only [Except.ok.injEq, Prod.mk.injEq] at h
          obtain ⟨h1, _⟩ := h
          subst h1
          rw [hf1] at ht
          simp at ht

theorem resolveSlot_transfer {P : Params} {m : ReqMatrix} {gout : Nat → Int}
    {fvc : Int} {input s : Nat} {st : ResolveSt} {c : Option Credit}
    {st2 : ResolveSt} {c2 : Option Credit} {t : Transfer}
    (h : resolveSlot P m gout fvc input s st c = Except.ok (st2, c2))
    (ht : st2.transfers = st.transfers ++ [t])
    (hact : (st.r.buf t.input t.vcn).state = VCState.active) :
    t.eo / P.outputSpeedup = (st.r.buf t.input t.vcn).outputPort ∧
    t.fPost.vc = (st.r.buf t.input t.vcn).outputVC := by
  simp only [resolveSlot] at h
  split at h
  · simp at h
  · rename_i eoI vcn heq
    by_cases hge : (0 : Int) ≤ eoI
    · rw [if_pos hge] at h
      exact resolveGrant_transfer h ht hact
    · rw [if_neg hge] at h
      split at h
      · split at h
        · simp at h
        · split at h
          · simp at h
          · simp only [Except.ok.injEq, Prod.mk.injEq] at h
            obtain ⟨h1, _⟩ := h
            subst h1
            simp at ht
      · simp only [Except.ok.injEq, Prod.mk.injEq] at h
        obtain ⟨h1, _⟩ := h
        subst h1
        simp at ht

/-- C9 (confirmed): active-state output fidelity.  First part: every
`AddRequest` call (slow or fast path) issued for a VC in `active` state
targets the expanded output of the VC's assigned output port.  Second part:
every transfer grant resolution performs for a VC that entered the cycle in
`active` state goes to its assigned output port, and the flit forwarded
through the crossbar carries the VC's assigned output VC. -/
theorem C9_active_output_fidelity :
    (∀ (P : Params) (r : RouterState) (cc : AddCall),
      cc ∈ slowLogOf P r ++ fastLogOf P r →
      (r.buf cc.input cc.vc).state = VCState.active →
      cc.eo = expOut P ((r.buf cc.input cc.vc).outputPort) cc.input) ∧
    (∀ (P : Params) (m : ReqMatrix) (gout : Nat → Int) (fvc : Int)
      (input s : Nat) (st st2 : ResolveSt) (c c2 : Option Credit) (t : Transfer),
      resolveSlot P m gout fvc input s st c = Except.ok (st2, c2) →
      st2.transfers = st.transfers ++ [t] →
      (st.r.buf t.input t.vcn).state = VCState.active →
      t.eo / P.outputSpeedup = (st.r.buf t.input t.vcn).outputPort ∧
      t.fPost.vc = (st.r.buf t.input t.vcn).outputVC) := by
  constructor
  · intro P r cc hm hact
    unfold slowLogOf at hm
    unfold fastLogOf at hm
    cases hb : buildRequests P r with
    | error a => rw [hb] at hm; cases hm
    | ok st =>
      rw [hb] at hm
      rcases List.mem_append.mp hm with h1 | h1
      · exact ((buildRequests_mem hb).1 cc h1).2.2.2.2 hact
      · exact ((buildRequests_mem hb).2 cc h1).2.2 hact
  · intro P m gout fvc input s st st2 c c2 t h ht hact
    exact resolveSlot_transfer h ht hact

/-- C10 (confirmed): on a granted flit transfer, the credit entry appended
for the input names the input-side VC id, which equals the dequeued flit's
own `vc` field; the flit forwarded to the downstream tracker and the crossbar
pipeline carries the VC's assigned output VC instead (and the occupancy the
tracker records is for that output VC). -/
theorem C10_credit_input_vc_flit_output_vc :
    ∀ (P : Params) (st st2 : ResolveSt) (c c2 : Option Credit) (input s vcn eo : Nat),
      activeTransfer P st c input s vcn eo = Except.ok (st2, c2) →
      ∃ f0 rest, (st.r.buf input vcn).flits = f0 :: rest ∧
        f0.vc = vcn ∧
        c2 = some ⟨(match c with | none => [] | some cr => cr.vcList) ++ [vcn],
          f0.fromRouter⟩ ∧
        st2.xbar eo =
          some { f0 with hops := f0.hops + 1, vc := (st.r.buf input vcn).outputVC } ∧
        (st2.r.nextBuf (eo / P.outputSpeedup)).occ ((st.r.buf input vcn).outputVC) =
          (st.r.nextBuf (eo / P.outputSpeedup)).occ ((st.r.buf input vcn).outputVC) + 1 := by
  intro P st st2 c c2 input s vcn eo h
  obtain ⟨f0, rest, g1, g2, _, _, g5, g6, g7, _, _, _, _⟩ :=
    activeTransfer_spec P st st2 c c2 input s vcn eo h
  exact ⟨f0, rest, g1, g2.symm, g5, g6, g7⟩

/-- C3 (witness): the amended statement applied to the `stW3` state: the held
(output, VC) is used and, the transferred flit being the tail, the binding is
cleared on both sides in the same cycle. -/
theorem C3_witness :
    (match resolveSlot cexP3 (fun _ _ => none) (fun _ => -1) (-1) 0 0 stW3 none with
      | Except.ok pr => pr.1.r.holdIn 0 = -1 ∧ pr.1.r.holdVC 0 = -1 ∧
          pr.1.r.holdOut 0 = -1
      | Except.error _ => False) :=
  exceptRun (resolveSlot cexP3 (fun _ _ => none) (fun _ => -1) (-1) 0 0 stW3 none)
    (fun pr => pr.1.r.holdIn 0 = -1 ∧ pr.1.r.holdVC 0 = -1 ∧ pr.1.r.holdOut 0 = -1)
    (fun pr hpr => by
      have h := (C3_hold_retry_and_release cexP3 (fun _ _ => none) (fun _ => -1) (-1)
        0 0 0 0 stW3 pr.1 none pr.2 (by decide) (by decide) hpr).2 (by decide) (by decide)
      obtain ⟨f0, rest, hfl, _, htail, _, _⟩ := h
      have hf0 : cexFlit1 = f0 := by
        have hx : (stW3.r.buf 0 0).flits = [cexFlit1] := rfl
        rw [hx] at hfl
        exact (List.cons.injEq _ _ _ _ ▸ hfl).1
      obtain ⟨k1, k2, k3⟩ := htail (by rw [← hf0]; rfl)
      exact ⟨k1, k2, k3⟩)
    (by rfl)

/-- C8 (witness): the credit theorem applied to the `stW1` state: input 0
transfers once and writes exactly one credit record batching that VC. -/
theorem C8_witness :
    (match resolveInput cexP1 wM8 wG8 (fun _ => -1) 0 stW1 with
      | Except.ok st2 => ∃ ts, st2.transfers = ts ∧ (∀ t ∈ ts, t.input = 0) ∧
          st2.creditLog = [(0, creditOf ts)]
      | Except.error _ => False) :=
  exceptRun (resolveInput cexP1 wM8 wG8 (fun _ => -1) 0 stW1)
    (fun st2 => ∃ ts, st2.transfers = ts ∧ (∀ t ∈ ts, t.input = 0) ∧
      st2.creditLog = [(0, creditOf ts)])
    (fun st2 h2 => by
      obtain ⟨ts, g1, g2, g3, _, _⟩ :=
        C8_one_credit_write_per_input cexP1 wM8 wG8 (fun _ => -1) 0 stW1 st2 h2
      refine ⟨ts, ?_, g2, ?_⟩
      · have : stW1.transfers = [] := rfl
        rw [this] at g1
        simpa using g1
      · have : stW1.creditLog = [] := rfl
        rw [this] at g3
        simpa using g3)
    (by rfl)

/-- C9 (witness): both parts applied concretely — the `active` VC 0 of
`cexR4` issues its slow-path request for exactly its assigned expanded
output, and the `stW3` hold transfer goes to the assigned output port with
the flit carrying the assigned output VC. -/
theorem C9_witness :
    ((⟨0, 0, 0, 0, 3, 0⟩ : AddCall).eo =
      expOut cexP1 ((cexR4.buf 0 0).outputPort) 0) ∧
    (wT9.eo / cexP3.outputSpeedup = (stW3.r.buf wT9.input wT9.vcn).outputPort ∧
      wT9.fPost.vc = (stW3.r.buf wT9.input wT9.vcn).outputVC) := by
  constructor
  · exact C9_active_output_fidelity.1 cexP1 cexR4 ⟨0, 0, 0, 0, 3, 0⟩ (by decide) (by decide)
  · obtain ⟨pr, hpr⟩ :
        ∃ pr, resolveSlot cexP3 (fun _ _ => none) (fun _ => -1) (-1) 0 0 stW3 none =
          Except.ok pr := ⟨_, rfl⟩
    have htr : pr.1.transfers = stW3.transfers ++ [wT9] := by
      have h1 : slotTransfers cexP3 (fun _ _ => none) (fun _ => -1) (-1) 0 0 stW3 none =
          some pr.1.transfers := by
        simp only [slotTransfers]
        rw [hpr]
      have h2 : slotTransfers cexP3 (fun _ _ => none) (fun _ => -1) (-1) 0 0 stW3 none =
          some (stW3.transfers ++ [wT9]) := by decide
      rw [h1] at h2
      exact Option.some_inj.mp h2
    exact C9_active_output_fidelity.2 cexP3 (fun _ _ => none) (fun _ => -1) (-1)
      0 0 stW3 pr.1 none pr.2 wT9 hpr htr (by decide)

/-- C10 (witness): the transfer theorem applied to the `stW3` state: the
credit entry names input-side VC 0 (the dequeued flit's own `vc`), while the
forwarded flit carries the assigned output VC. -/
theorem C10_witness :
    (match activeTransfer cexP3 stW3 none 0 0 0 0 with
      | Except.ok pr => pr.2 = some ⟨[0], 7⟩ ∧
          pr.1.xbar 0 = some ⟨1, 0, 7, 1, true⟩
      | Except.error _ => False) :=
  exceptRun (activeTransfer cexP3 stW3 none 0 0 0 0)
    (fun pr => pr.2 = some ⟨[0], 7⟩ ∧ pr.1.xbar 0 = some ⟨1, 0, 7, 1, true⟩)
    (fun pr hpr => by
      obtain ⟨f0, rest, hfl, hvc, hc2, hxbar, _⟩ :=
        C10_credit_input_vc_flit_output_vc cexP3 stW3 pr.1 none pr.2 0 0 0 0 hpr
      have hf0 : cexFlit1 = f0 := by
        have hx : (stW3.r.buf 0 0).flits = [cexFlit1] := rfl
        rw [hx] at hfl
        exact (List.cons.injEq _ _ _ _ ▸ hfl).1
      constructor
      · rw [hc2, ← hf0]
        rfl
      · rw [hxbar, ← hf0]
        rfl)
    (by rfl)

end IQSplit
